import Mathlib

/-!
Verification of the LLM-driven action-plan orchestrator
(Next.js route `src/app/api/agent/route.ts` and MCP client `lib/mcp-client.ts`).

The development shallowly embeds the TypeScript source: strings are lists of
characters, the JavaScript builtins used by the code (`JSON.parse`, the two
regular expressions, `String.prototype.trim`, array `slice`) are modelled as
executable Lean functions, and the stateful request handler is modelled as a
pure function over an environment of oracles describing the external
collaborators (the MCP execution transport and the Anthropic model transport).
-/

namespace Sitecore

/-! ## Character-level utilities (JS semantics) -/

/-- The backtick character, used by the fenced-code-block regex. -/
def btick : Char := Char.ofNat 96

/-- Whitespace for the JS regex class `\s` and for `String.prototype.trim`
(WhiteSpace plus LineTerminator code points). -/
def jsWs (c : Char) : Bool :=
  c == ' ' || c == '\t' || c == '\n' || c == '\r' ||
  c == Char.ofNat 11 || c == Char.ofNat 12 ||
  c == Char.ofNat 160 || c == Char.ofNat 0x1680 ||
  (0x2000 ≤ c.toNat && c.toNat ≤ 0x200a) ||
  c == Char.ofNat 0x2028 || c == Char.ofNat 0x2029 || c == Char.ofNat 0x202f ||
  c == Char.ofNat 0x205f || c == Char.ofNat 0x3000 || c == Char.ofNat 0xfeff

/-- Whitespace accepted by the JSON grammar (ECMA-404), as used by `JSON.parse`. -/
def jsonWs (c : Char) : Bool :=
  c == ' ' || c == '\t' || c == '\n' || c == '\r'

/-- Drop the longest leading run of characters satisfying `p`. -/
def skipWsWith (p : Char → Bool) : List Char → List Char
  | [] => []
  | c :: r => if p c then skipWsWith p r else c :: r

/-- Drop leading JS whitespace. -/
def skipJsWs : List Char → List Char := skipWsWith jsWs

/-- Drop leading JSON whitespace. -/
def skipJsonWs : List Char → List Char := skipWsWith jsonWs

/-- `String.prototype.trim`: drop leading and trailing JS whitespace. -/
def jsTrim (cs : List Char) : List Char :=
  ((skipJsWs ((skipJsWs cs).reverse)).reverse)

/-- Whether the (already trimmed) text ends with the character `c`
(`.endsWith` on a one-character suffix). -/
def lastIs (cs : List Char) (c : Char) : Bool :=
  match cs.getLast? with
  | some x => x == c
  | none => false

/-! ## JSON values

`Json` models the JavaScript values produced by `JSON.parse`.  Numbers are
represented exactly as a normalized base-10 mantissa/exponent pair (the claims
under verification never exercise float rounding).  Objects are insertion-order
association lists, with `objInsert` reproducing JavaScript property definition
(later duplicate keys overwrite in place). -/

inductive Json where
  | null : Json
  | bool : Bool → Json
  | num : Int → Int → Json
  | str : String → Json
  | arr : List Json → Json
  | obj : List (String × Json) → Json

/-- JS object property definition: overwrite in place if the key exists,
otherwise append. -/
def objInsert : List (String × Json) → String → Json → List (String × Json)
  | [], k, v => [(k, v)]
  | (k', v') :: rest, k, v =>
    if k' = k then (k', v) :: rest else (k', v') :: objInsert rest k v

/-- Strip factors of ten from the mantissa into the exponent. -/
def normNumAux : Nat → Int → Int → Int × Int
  | 0, m, e => (m, e)
  | f + 1, m, e => if m ≠ 0 ∧ m % 10 = 0 then normNumAux f (m / 10) (e + 1) else (m, e)

/-- Normalized JSON number value. -/
def mkNum (m e : Int) : Json :=
  let p := normNumAux m.natAbs m e
  Json.num p.1 p.2

/-! ## `JSON.parse` -/

/-- Hexadecimal digit value. -/
def hexVal (c : Char) : Option Nat :=
  if '0' ≤ c ∧ c ≤ '9' then some (c.toNat - 48)
  else if 'a' ≤ c ∧ c ≤ 'f' then some (c.toNat - 87)
  else if 'A' ≤ c ∧ c ≤ 'F' then some (c.toNat - 55)
  else none

/-- Single-character JSON string escapes. -/
def escChar (e : Char) : Option Char :=
  if e = '"' then some '"'
  else if e = '\\' then some '\\'
  else if e = '/' then some '/'
  else if e = 'b' then some (Char.ofNat 8)
  else if e = 'f' then some (Char.ofNat 12)
  else if e = 'n' then some '\n'
  else if e = 'r' then some '\r'
  else if e = 't' then some '\t'
  else none

/-- Parse the body of a JSON string (after the opening quote), returning the
decoded characters and the rest of the input after the closing quote.  Raw
control characters are rejected, as in `JSON.parse`. -/
def parseStringChars : List Char → Option (List Char × List Char)
  | [] => none
  | c :: r =>
    if c = '"' then some ([], r)
    else if c = '\\' then
      match r with
      | [] => none
      | 'u' :: h1 :: h2 :: h3 :: h4 :: r2 =>
        match hexVal h1, hexVal h2, hexVal h3, hexVal h4 with
        | some a, some b, some d, some e2 =>
          (parseStringChars r2).map
            (fun p => (Char.ofNat (((a * 16 + b) * 16 + d) * 16 + e2) :: p.1, p.2))
        | _, _, _, _ => none
      | e :: r2 =>
        match escChar e with
        | some ec => (parseStringChars r2).map (fun p => (ec :: p.1, p.2))
        | none => none
    else if c.toNat < 32 then none
    else (parseStringChars r).map (fun p => (c :: p.1, p.2))

/-- Decimal digit value. -/
def digitVal (c : Char) : Option Nat :=
  if '0' ≤ c ∧ c ≤ '9' then some (c.toNat - 48) else none

/-- Take a maximal run of decimal digits. -/
def takeDigits : List Char → (List Nat × List Char)
  | [] => ([], [])
  | c :: r =>
    match digitVal c with
    | some d => let p := takeDigits r; (d :: p.1, p.2)
    | none => ([], c :: r)

/-- Digits to a natural number, most significant first. -/
def digitsToNat (ds : List Nat) : Nat := ds.foldl (fun a d => a * 10 + d) 0

/-- Signed normalized number value. -/
def mkNumSigned (neg : Bool) (m : Nat) (e : Int) : Json :=
  mkNum (if neg then -(m : Int) else (m : Int)) e

/-- Optional exponent part of a JSON number. -/
def parseNumExp (neg : Bool) (m : Nat) (e0 : Int) : List Char → Option (Json × List Char)
  | [] => some (mkNumSigned neg m e0, [])
  | c :: r =>
    if c = 'e' ∨ c = 'E' then
      let sr : Int × List Char :=
        match r with
        | '+' :: rr => (1, rr)
        | '-' :: rr => (-1, rr)
        | _ => (1, r)
      let p := takeDigits sr.2
      if p.1 = [] then none
      else some (mkNumSigned neg m (e0 + sr.1 * (digitsToNat p.1 : Int)), p.2)
    else some (mkNumSigned neg m e0, c :: r)

/-- Optional fraction part of a JSON number. -/
def parseNumFrac (neg : Bool) (ip : Nat) : List Char → Option (Json × List Char)
  | '.' :: r =>
    let p := takeDigits r
    if p.1 = [] then none
    else parseNumExp neg (ip * 10 ^ p.1.length + digitsToNat p.1) (-(p.1.length : Int)) p.2
  | cs => parseNumExp neg ip 0 cs

/-- JSON number token (sign, integer part with the no-leading-zero rule,
fraction, exponent). -/
def parseNumberTok (cs : List Char) : Option (Json × List Char) :=
  let sc : Bool × List Char :=
    match cs with
    | '-' :: r => (true, r)
    | _ => (false, cs)
  match sc.2 with
  | '0' :: r => parseNumFrac sc.1 0 r
  | c :: r =>
    match digitVal c with
    | some d => let p := takeDigits r; parseNumFrac sc.1 (digitsToNat (d :: p.1)) p.2
    | none => none
  | [] => none

mutual

/-- Parse one JSON value (after optional whitespace), fuel-indexed. -/
def parseValue : Nat → List Char → Option (Json × List Char)
  | 0, _ => none
  | f + 1, cs =>
    match skipJsonWs cs with
    | [] => none
    | 'n' :: 'u' :: 'l' :: 'l' :: r => some (Json.null, r)
    | 't' :: 'r' :: 'u' :: 'e' :: r => some (Json.bool true, r)
    | 'f' :: 'a' :: 'l' :: 's' :: 'e' :: r => some (Json.bool false, r)
    | '"' :: r => (parseStringChars r).map (fun p => (Json.str (String.mk p.1), p.2))
    | '[' :: r => parseArrayRest f r
    | '{' :: r => parseObjRest f r
    | c :: r => if c = '-' ∨ (digitVal c).isSome then parseNumberTok (c :: r) else none

/-- Parse the remainder of an array after `[`. -/
def parseArrayRest : Nat → List Char → Option (Json × List Char)
  | 0, _ => none
  | f + 1, cs =>
    match skipJsonWs cs with
    | ']' :: r => some (Json.arr [], r)
    | _ => parseElemsLoop f cs []

/-- Element/comma loop of a non-empty array. -/
def parseElemsLoop : Nat → List Char → List Json → Option (Json × List Char)
  | 0, _, _ => none
  | f + 1, cs, acc =>
    match parseValue f cs with
    | none => none
    | some (v, r1) =>
      match skipJsonWs r1 with
      | ',' :: r2 => parseElemsLoop f r2 (v :: acc)
      | ']' :: r2 => some (Json.arr (v :: acc).reverse, r2)
      | _ => none

/-- Parse the remainder of an object after `{`. -/
def parseObjRest : Nat → List Char → Option (Json × List Char)
  | 0, _ => none
  | f + 1, cs =>
    match skipJsonWs cs with
    | '}' :: r => some (Json.obj [], r)
    | _ => parseMembersLoop f cs []

/-- Member/comma loop of a non-empty object. -/
def parseMembersLoop : Nat → List Char → List (String × Json) → Option (Json × List Char)
  | 0, _, _ => none
  | f + 1, cs, acc =>
    match skipJsonWs cs with
    | '"' :: r1 =>
      match parseStringChars r1 with
      | none => none
      | some (k, r2) =>
        match skipJsonWs r2 with
        | ':' :: r3 =>
          match parseValue f r3 with
          | none => none
          | some (v, r4) =>
            match skipJsonWs r4 with
            | ',' :: r5 => parseMembersLoop f r5 (objInsert acc (String.mk k) v)
            | '}' :: r5 => some (Json.obj (objInsert acc (String.mk k) v), r5)
            | _ => none
        | _ => none
    | _ => none

end

/-- `JSON.parse`: a complete JSON text (value with surrounding whitespace). -/
def jsonParse (cs : List Char) : Option Json :=
  match parseValue (3 * cs.length + 6) cs with
  | some (v, r) =>
    match skipJsonWs r with
    | [] => some v
    | _ => none
  | none => none

example : jsonParse "[]".toList = some (Json.arr []) := rfl

example : jsonParse "\x7b\x7d".toList = some (Json.obj []) := rfl

example :
    jsonParse "[\"a\", 10, true]".toList =
      some (Json.arr [Json.str "a", Json.num 1 1, Json.bool true]) := rfl

example :
    jsonParse "\x7b\"a\":\"x\",\"b\":null\x7d".toList =
      some (Json.obj [("a", Json.str "x"), ("b", Json.null)]) := rfl

example : jsonParse "[\x7b\"a\":\"x\"\x7d".toList = none := rfl

/-! ## The recovery regex `/\{[\s\S]*?\}(?=\s*,\s*\{|\s*\])/g`

`parseClaudeResponse` (route.ts, lines 100–125) scans the raw text for
non-greedy `{...}` fragments whose closing brace is followed (lookahead, not
consumed) by `,`-then-`{` or by `]`, possibly with whitespace.  The JS engine
tries successive start positions; a match must begin at `{`, extends to the
first `}` satisfying the lookahead, and scanning resumes after the match. -/

/-- The lookahead `(?=\s*,\s*\{|\s*\])`. -/
def lookaheadOk (cs : List Char) : Bool :=
  match skipJsWs cs with
  | ',' :: r =>
    match skipJsWs r with
    | '{' :: _ => true
    | _ => false
  | ']' :: _ => true
  | _ => false

/-- Non-greedy search for the first `}` whose suffix satisfies the lookahead.
`acc` holds the consumed characters in reverse (the opening `{` included).
Returns the full match and the unconsumed rest. -/
def tryMatchObj (acc : List Char) : List Char → Option (List Char × List Char)
  | [] => none
  | c :: rest =>
    if c = '}' ∧ lookaheadOk rest then some ((c :: acc).reverse, rest)
    else tryMatchObj (c :: acc) rest

/-- Global scan (`matchAll`): at each `{` attempt a match; on success resume
after the match, on failure advance one character. -/
def scanGo : Nat → List Char → List (List Char)
  | 0, _ => []
  | _, [] => []
  | f + 1, c :: rest =>
    if c = '{' then
      match tryMatchObj [c] rest with
      | some (m, rest') => m :: scanGo f rest'
      | none => scanGo f rest
    else scanGo f rest

/-- `responseText.match(/\{[\s\S]*?\}(?=\s*,\s*\{|\s*\])/g) || []`. -/
def scanObjects (cs : List Char) : List (List Char) := scanGo cs.length cs

/-- `[${objects.join(",")}]` — the reconstructed array text. -/
def reconstructArray (objs : List (List Char)) : List Char :=
  '[' :: (objs.intersperse [',']).flatten ++ [']']

/-! ## The fenced-code-block regex `/```(?:json)?\s*([\s\S]*?)\s*```/` -/

/-- Does `cs` start with ```` ``` ````? -/
def startsFence : List Char → Bool
  | a :: b :: c :: _ => a == btick && b == btick && c == btick
  | _ => false

/-- Drop a leading ```` ``` ```` (callers check `startsFence` first). -/
def dropFence (cs : List Char) : List Char := cs.drop 3

/-- The greedy optional `(?:json)?`. -/
def dropJsonTag : List Char → List Char
  | 'j' :: 's' :: 'o' :: 'n' :: r => r
  | cs => cs

/-- Whether the suffix matches `\s*```` ``` ```` (the close of the fence). -/
def wsThenFence (cs : List Char) : Bool := startsFence (skipJsWs cs)

/-- Lazy capture: the shortest prefix whose remainder matches `\s*```` ``` ````. -/
def captureTo (acc : List Char) : List Char → Option (List Char)
  | [] => if wsThenFence [] then some acc.reverse else none
  | c :: r =>
    if wsThenFence (c :: r) then some acc.reverse
    else captureTo (c :: acc) r

/-- Attempt the whole fence regex at this position. -/
def fenceMatchAt (cs : List Char) : Option (List Char) :=
  if startsFence cs then captureTo [] (skipJsWs (dropJsonTag (dropFence cs)))
  else none

/-- Leftmost match of the fence regex over the whole text (capture group 1). -/
def fenceScan : List Char → Option (List Char)
  | [] => none
  | c :: rest =>
    match fenceMatchAt (c :: rest) with
    | some cap => some cap
    | none => fenceScan rest

/-! ## `parseClaudeResponse` (route.ts lines 93–156) -/

/-- `jsonString.replace(/,\s*$/, "")`: strip one trailing comma together with
the whitespace after it, if the text ends that way. -/
def stripTrailingComma (cs : List Char) : List Char :=
  match skipJsWs cs.reverse with
  | ',' :: r => r.reverse
  | _ => cs

/-- Multi-stage plan parser.  `none` models the function throwing.  Stages, as
in the source: truncation detection and object-boundary recovery; fenced-block
extraction (else the trimmed text); direct `JSON.parse`; trailing-comma repair
with a `]` appended. -/
def parseClaudeResponse (cs : List Char) : Option Json :=
  let isTruncated := !(lastIs (jsTrim cs) ']') && cs.contains '['
  let recovered : Option Json :=
    if isTruncated then
      match scanObjects cs with
      | [] => none
      | o :: objs => jsonParse (reconstructArray (o :: objs))
    else none
  match recovered with
  | some v => some v
  | none =>
    let jsonString :=
      match fenceScan cs with
      | some cap => jsTrim cap
      | none => jsTrim cs
    match jsonParse jsonString with
    | some v => some v
    | none =>
      if jsonString.contains '[' ∧ !(lastIs (jsTrim jsonString) ']') then
        jsonParse (stripTrailingComma jsonString ++ [']'])
      else none

/-- String-level wrapper. -/
def parseClaude (s : String) : Option Json := parseClaudeResponse s.toList

example :
    parseClaude "[\x7b\"a\":\"x\"\x7d,\x7b\"b\":\"y\"\x7d" =
      some (Json.arr [Json.obj [("a", Json.str "x")]]) := rfl

example :
    parseClaude "[\x7b\"a\":\"x\"\x7d" =
      some (Json.arr [Json.obj [("a", Json.str "x")]]) := rfl

example :
    parseClaude "[\x7b\"a\":\"x\"\x7d," =
      some (Json.arr [Json.obj [("a", Json.str "x")]]) := rfl

example :
    parseClaude "[\x7b\"a\":\"x\"\x7d,\x7b\"b\":" =
      some (Json.arr [Json.obj [("a", Json.str "x")]]) := rfl

example :
    parseClaude "```json\n[\x7b\"a\":\"x\"\x7d]\n```" =
      some (Json.arr [Json.obj [("a", Json.str "x")]]) := rfl

example : parseClaude "```json\n[]\n```" = some (Json.arr []) := rfl

example : parseClaude "garbage" = none := rfl

/-- Wrap a model answer in a fenced code block. -/
def fenceWrap (s : String) : String := "```json\n" ++ s ++ "\n```"

example :
    parseClaude "[\x7b\"tool\":\"a\",\"parameters\":\x7b\x7d,\"reasoning\":\"\x7d]```\"\x7d]" =
      some (Json.arr [Json.obj
        [("tool", Json.str "a"), ("parameters", Json.obj []),
         ("reasoning", Json.str "\x7d]```")]]) := rfl

example :
    parseClaude
      (fenceWrap "[\x7b\"tool\":\"a\",\"parameters\":\x7b\x7d,\"reasoning\":\"\x7d]```\"\x7d]") =
      none := rfl

/-! ## String helpers shared by the gateway and the orchestrator -/

/-- Does `hay` start with `needle`? -/
def startsWithList : List Char → List Char → Bool
  | _, [] => true
  | [], _ :: _ => false
  | h :: hs, n :: ns => h == n && startsWithList hs ns

/-- JS `String.prototype.includes`. -/
def listIncludes : List Char → List Char → Bool
  | [], needle => needle.isEmpty
  | h :: t, needle => startsWithList (h :: t) needle || listIncludes t needle

/-- ASCII lower-casing (the rate-limit message probe). -/
def asciiLower (c : Char) : Char :=
  if 'A' ≤ c ∧ c ≤ 'Z' then Char.ofNat (c.toNat + 32) else c

/-- Minimal JSON string escaping for `JSON.stringify` renderings. -/
def escapeJsonStr (s : String) : String :=
  String.mk (s.toList.flatMap (fun c =>
    if c = '"' then ['\\', '"']
    else if c = '\\' then ['\\', '\\']
    else if c = '\n' then ['\\', 'n']
    else if c = '\r' then ['\\', 'r']
    else if c = '\t' then ['\\', 't']
    else [c]))

/-- Decimal rendering of the exact number value `m * 10 ^ e`. -/
def renderNum (m e : Int) : String :=
  if 0 ≤ e then toString (m * 10 ^ e.toNat)
  else
    let n := (-e).toNat
    let a := m.natAbs
    let intPart := a / 10 ^ n
    let fracPart := a % 10 ^ n
    let fracStr := toString fracPart
    (if m < 0 then "-" else "") ++ toString intPart ++ "." ++
      String.mk (List.replicate (n - fracStr.length) '0') ++ fracStr

/-- `JSON.stringify` (default spacing), fuel-indexed on nesting depth; the
fuel is never exhausted on the values the claims exercise. -/
def renderJson : Nat → Json → String
  | _, Json.null => "null"
  | _, Json.bool b => if b then "true" else "false"
  | _, Json.num m e => renderNum m e
  | _, Json.str s => "\"" ++ escapeJsonStr s ++ "\""
  | 0, Json.arr _ => ""
  | 0, Json.obj _ => ""
  | f + 1, Json.arr xs => "[" ++ String.intercalate "," (xs.map (renderJson f)) ++ "]"
  | f + 1, Json.obj kvs =>
    "\x7b" ++
      String.intercalate ","
        (kvs.map (fun p => "\"" ++ escapeJsonStr p.1 ++ "\":" ++ renderJson f p.2)) ++
      "\x7d"

/-- JS `String(value)` as it appears in template literals. -/
def jsShowJson : Nat → Json → String
  | _, Json.null => "null"
  | _, Json.bool b => if b then "true" else "false"
  | _, Json.num m e => renderNum m e
  | _, Json.str s => s
  | _, Json.obj _ => "[object Object]"
  | 0, Json.arr _ => ""
  | f + 1, Json.arr xs =>
    String.intercalate ","
      (xs.map (fun x =>
        match x with
        | Json.null => ""
        | _ => jsShowJson f x))

/-- Template interpolation of a possibly-`undefined` JS value. -/
def jsShowOpt : Option Json → String
  | some v => jsShowJson 1000 v
  | none => "undefined"

/-- Property access on a JS value (`undefined` when absent or not an object). -/
def jGet : Json → String → Option Json
  | Json.obj kvs, k => (kvs.find? (fun p => p.1 == k)).map (fun p => p.2)
  | _, _ => none

/-! ## Model Gateway: `sendAnthropicMessages` (route.ts lines 13–50)

The Anthropic transport is an oracle from the call number (0-based: the number
of failed calls so far) to the outcome of `anthropic.messages.create`.  The
output records the result together with the backoff sleeps performed and the
retry warning lines emitted. -/

/-- The error value thrown by the Anthropic SDK, as far as the code reads it:
`status` collapses `err?.status || err?.response?.status`, `errType`/`errMsg`
collapse `err?.error || err?.response?.data`, and `message` is `err.message`. -/
structure AnthroErr where
  status : Option Int
  errType : Option String
  errMsg : Option String
  message : String
deriving DecidableEq

/-- The rate-limit classification in the catch block. -/
def isRateLimitErr (e : AnthroErr) : Bool :=
  e.status == some 429 || e.errType == some "rate_limit_error" ||
    (match e.errMsg with
     | some m => listIncludes (m.toList.map asciiLower) "rate limit".toList
     | none => false)

/-- One content block of an Anthropic message response. -/
structure ContentBlock where
  type : String
  text : String
deriving DecidableEq

/-- An Anthropic message response, as far as the code reads it. -/
structure MsgResp where
  content : List ContentBlock
  stopReason : Option String
deriving DecidableEq

/-- The `console.warn` line emitted before each backoff sleep. -/
def retryLogLine (delay attempt maxRetries : Nat) : String :=
  "Rate limit detected from Anthropic, retrying in " ++ toString delay ++
    "ms (attempt " ++ toString attempt ++ "/" ++ toString maxRetries ++ ")"

/-- Gateway outcome: the returned result (or re-raised error), the backoff
sleeps in order, and the retry warnings in order. -/
structure GatewayOut where
  result : Except AnthroErr MsgResp
  sleeps : List Nat
  warns : List String

/-- The `while (attempt <= maxRetries)` loop.  The fuel equals the number of
loop iterations still permitted; exhausted fuel models the (unreachable)
trailing `throw lastErr`. -/
def sendGo (create : Nat → Except AnthroErr MsgResp) (maxRetries : Nat) :
    Nat → Nat → Option AnthroErr → GatewayOut
  | 0, _, lastErr => ⟨.error (lastErr.getD ⟨none, none, none, ""⟩), [], []⟩
  | f + 1, attempt, _ =>
    match create attempt with
    | .ok r => ⟨.ok r, [], []⟩
    | .error err =>
      let attempt' := attempt + 1
      if !isRateLimitErr err ∨ attempt' > maxRetries then ⟨.error err, [], []⟩
      else
        let delay := 500 * 2 ^ (attempt' - 1)
        let rest := sendGo create maxRetries f attempt' (some err)
        ⟨rest.result, delay :: rest.sleeps, retryLogLine delay attempt' maxRetries :: rest.warns⟩

/-- `sendAnthropicMessages` with the default `maxRetries` made explicit. -/
def sendAnthropicMessages (create : Nat → Except AnthroErr MsgResp) (maxRetries : Nat) :
    GatewayOut :=
  sendGo create maxRetries (maxRetries + 1) 0 none

/-! ## Plan Executor (route.ts lines 317–363)

Planned actions are the raw `Json` elements of the parsed plan; the execution
transport is an oracle from tool name and arguments to the call outcome.  The
executor threads the audit log, the collected results, and the trace of tool
invocations actually performed. -/

/-- A tool invocation result as far as the code reads it: the `isError` flag
plus `raw`, standing for the `JSON.stringify` rendering of the whole result. -/
structure ToolResult where
  isError : Bool
  raw : String
deriving DecidableEq

/-- Outcome of `client.callTool`: a result object, or a thrown error. -/
inductive CallRes where
  | res : ToolResult → CallRes
  | exn : String → CallRes

/-- Executor state: collected results and the audit log. -/
structure ExecSt where
  results : List ToolResult
  logs : List String
deriving DecidableEq

/-- `JSON.stringify(action.parameters)` (stringify of `undefined` renders as
`undefined` in the template literal). -/
def stringifyParams : Option Json → String
  | some v => renderJson 1000 v
  | none => "undefined"

/-- The step loop `for (const [index, action] of actionPlan.entries())`.
`total` is `actionPlan.length`, `idx` the current index, `tr` the trace of
invocations already made.  An `Except.error` carries the thrown message plus
the state and trace at the moment of the throw. -/
def execSteps (toolNames : List String) (call : String → Option Json → CallRes)
    (total : Nat) :
    List Json → Nat → ExecSt → List (String × Option Json) →
    Except (String × ExecSt × List (String × Option Json))
      (ExecSt × List (String × Option Json))
  | [], _, st, tr => .ok (st, tr)
  | a :: rest, idx, st, tr =>
    let toolField := jGet a "tool"
    let params := jGet a "parameters"
    let logs1 := st.logs ++
      ["Executing step " ++ toString (idx + 1) ++ "/" ++ toString total ++ ": " ++
        jsShowOpt toolField,
       "Parameters: " ++ stringifyParams params,
       "Reasoning: " ++ jsShowOpt (jGet a "reasoning")]
    match toolField with
    | some (Json.str s) =>
      if toolNames.contains s then
        match call s params with
        | .exn m =>
          .error ("Error executing tool " ++ s ++ ": " ++ m,
            ⟨st.results, logs1 ++ ["Error executing tool " ++ s ++ ": " ++ m]⟩,
            tr ++ [(s, params)])
        | .res r =>
          let results' := st.results ++ [r]
          let logs2 := logs1 ++ ["Step " ++ toString (idx + 1) ++ " completed successfully"]
          if r.isError then
            let inner := "Error in step " ++ toString (idx + 1) ++ ": " ++ r.raw
            .error ("Error executing tool " ++ s ++ ": " ++ inner,
              ⟨results',
               logs2 ++ ["Step " ++ toString (idx + 1) ++ " returned error: " ++ r.raw,
                 "Error executing tool " ++ s ++ ": " ++ inner]⟩,
              tr ++ [(s, params)])
          else
            execSteps toolNames call total rest (idx + 1) ⟨results', logs2⟩ (tr ++ [(s, params)])
      else
        .error ("Tool not available: " ++ s,
          ⟨st.results, logs1 ++ ["Tool not available: " ++ s]⟩, tr)
    | _ =>
      .error ("Tool not available: " ++ jsShowOpt toolField,
        ⟨st.results, logs1 ++ ["Tool not available: " ++ jsShowOpt toolField]⟩, tr)

/-! ## MCP client (`lib/mcp-client.ts`)

`createSitecoreMCPClient` connects a stdio transport, fetches the tool list
once, and closes over that snapshot: `listTools` always returns it, and
`getToolSchema` resolves names against it. -/

/-- JS truthiness of a JSON value. -/
def jsTruthy : Json → Bool
  | Json.null => false
  | Json.bool b => b
  | Json.num m _ => m != 0
  | Json.str s => s != ""
  | Json.arr _ => true
  | Json.obj _ => true

/-- A tool entry of the fetched tool list, as far as the code reads it. -/
structure McpTool where
  name : String
  description : Option String
  inputSchema : Option Json
  parameters : Option Json

/-- JS `a.includes(b)` on strings. -/
def strIncludes (a b : String) : Bool := listIncludes a.toList b.toList

/-- The `item-service-get-item-by-path` schema template. -/
def schemaGetItemByPath : Json :=
  Json.obj
    [("type", Json.str "object"),
     ("properties", Json.obj [("path", Json.obj [("type", Json.str "string")])]),
     ("required", Json.arr [Json.str "path"])]

/-- The `item-service-edit-item` schema template. -/
def schemaEditItem : Json :=
  Json.obj
    [("type", Json.str "object"),
     ("properties", Json.obj
       [("data", Json.obj
         [("type", Json.str "object"),
          ("properties", Json.obj
            [("ItemID", Json.obj [("type", Json.str "string")]),
             ("Fields", Json.obj
               [("type", Json.str "array"),
                ("items", Json.obj
                  [("type", Json.str "object"),
                   ("properties", Json.obj
                     [("Name", Json.obj [("type", Json.str "string")]),
                      ("Value", Json.obj [("type", Json.str "string")])])])])]),
          ("required", Json.arr [Json.str "ItemID", Json.str "Fields"])])]),
     ("required", Json.arr [Json.str "data"])]

/-- The `item-service-update-item-field` schema template. -/
def schemaUpdateItemField : Json :=
  Json.obj
    [("type", Json.str "object"),
     ("properties", Json.obj
       [("itemId", Json.obj [("type", Json.str "string")]),
        ("fieldName", Json.obj [("type", Json.str "string")]),
        ("fieldValue", Json.obj [("type", Json.str "string")])]),
     ("required", Json.arr [Json.str "itemId", Json.str "fieldName", Json.str "fieldValue"])]

/-- The `parameterPatterns` lookup table, in insertion order. -/
def parameterPatterns : List (String × Json) :=
  [("item-service-get-item-by-path", schemaGetItemByPath),
   ("item-service-edit-item", schemaEditItem),
   ("item-service-update-item-field", schemaUpdateItemField)]

/-- The empty-object schema returned for unmatched names. -/
def emptyObjectSchema : Json :=
  Json.obj
    [("type", Json.str "object"), ("properties", Json.obj []),
     ("required", Json.arr [])]

/-- `inferParametersFromToolName`: first pattern such that the tool name
contains it or it contains the tool name. -/
def inferParametersFromToolName (toolName : String) : Json :=
  match parameterPatterns.find?
      (fun p => strIncludes toolName p.1 || strIncludes p.1 toolName) with
  | some p => p.2
  | none => emptyObjectSchema

/-- The wrapped inferred-schema object of the final `else` branch
(an `undefined` description is modelled as `null`). -/
def wrappedInferred (t : McpTool) : Json :=
  Json.obj
    [("name", Json.str t.name),
     ("description",
       match t.description with
       | some d => Json.str d
       | none => Json.null),
     ("parameters", inferParametersFromToolName t.name)]

/-- The `if (tool.inputSchema) ... else if (tool.parameters) ... else` chain. -/
def schemaOfTool (t : McpTool) : Json :=
  match t.inputSchema with
  | some s =>
    if jsTruthy s then s
    else
      match t.parameters with
      | some p => if jsTruthy p then p else wrappedInferred t
      | none => wrappedInferred t
  | none =>
    match t.parameters with
    | some p => if jsTruthy p then p else wrappedInferred t
    | none => wrappedInferred t

/-- `getToolSchema` over the connection-time snapshot. -/
def getToolSchemaModel (toolsList : List McpTool) (toolName : String) : Except String Json :=
  match toolsList.find? (fun t => t.name == toolName) with
  | none => .error ("Herramienta " ++ toolName ++ " no encontrada")
  | some t => .ok (schemaOfTool t)

/-- The connected client: just the snapshot it closed over. -/
structure McpConn where
  toolsList : List McpTool

/-- `createSitecoreMCPClient` as a function of the connect/list outcome. -/
def createSitecoreMCPClient (connect : Except String (List McpTool)) :
    Except String McpConn :=
  match connect with
  | .ok tl => .ok ⟨tl⟩
  | .error e => .error ("MCP connection failed: " ++ e)

/-- `listTools` of the returned client: the snapshot, unconditionally. -/
def listToolsModel (c : McpConn) : List McpTool := c.toolsList

/-! ## Orchestrator: the `POST` handler (route.ts lines 158–433)

The request body, the transport connection outcome, the tool-call behaviour
and the two Anthropic call oracles form the environment.  The handler is a
pure function from the environment to the response plus the trace of transport
events (tool calls, and the final `close` from the `finally` block). -/

/-- `pageContext` as far as the code reads it (`pageContext.pageInfo?.id`
collapsed to one optional identifier). -/
structure PageCtx where
  pageId : Option String

/-- A conversation-history entry supplied by the caller (role and content are
what the code forwards; the timestamp is carried but never read). -/
structure HistMsg where
  role : String
  content : String
  timestamp : Option String
deriving DecidableEq

/-- A chat message sent to the model transport. -/
structure ChatMsg where
  role : String
  content : String
deriving DecidableEq

/-- The request environment: body fields plus oracles for the execution
transport and the model transport (the model oracles see the messages sent
and the 0-based call number within one gateway invocation). -/
structure Env where
  connect : Except String (List McpTool)
  callOracle : String → Option Json → CallRes
  prompt : String
  pageCtx : Option PageCtx
  history : List HistMsg
  planCreate : List ChatMsg → Nat → Except AnthroErr MsgResp
  summaryCreate : List ChatMsg → Nat → Except AnthroErr MsgResp

/-- The terminal outcome: `ok logs actionPlan results response` models the
success JSON body, `fail logs details` the 500 body (whose `error` field is
the constant `"AI agent error"`). -/
inductive Resp where
  | ok : List String → List Json → List ToolResult → String → Resp
  | fail : List String → String → Resp

/-- Observable execution-transport events. -/
inductive Event where
  | call : String → Event
  | close : Event
deriving DecidableEq

/-- `pageContext?.pageInfo?.id`. -/
def pageIdOf : Option PageCtx → Option String
  | some p => p.pageId
  | none => none

/-- JS truthiness of the optional identifier string. -/
def truthyId : Option String → Bool
  | some s => s != ""
  | none => false

/-- `${... || "unknown"}`. -/
def pageIdDisplay (pid : Option String) : String :=
  match pid with
  | some s => if s != "" then s else "unknown"
  | none => "unknown"

/-- JS `arr.slice(-k)`. -/
def jsSliceLast {α : Type} (l : List α) (k : Nat) : List α :=
  l.drop (l.length - k)

/-- Message construction of step 6 (route.ts lines 208–224): the last ten
history entries (role and content copied) followed by the current prompt. -/
def buildPlanMessages (history : List HistMsg) (content : String) : List ChatMsg :=
  (if history.length > 0 then
    (jsSliceLast history 10).map (fun m => ⟨m.role, m.content⟩)
  else []) ++ [⟨"user", content⟩]

/-- The fallback plan substituted when parsing fails entirely
(route.ts lines 301–313). -/
def fallbackPlan (pid : Option String) : List Json :=
  [Json.obj
    [("tool", Json.str "content_items.list"),
     ("parameters", Json.obj
       ([("page", mkNum 1 0), ("pageSize", mkNum 10 0)] ++
         (if truthyId pid then [("itemId", Json.str (pid.getD ""))] else []))),
     ("reasoning", Json.str "Fallback: Basic content listing to understand structure")]]

/-- `Object.keys`, as used on a schema property bag (string values enumerate
their indices, other primitives have no keys). -/
def objKeys : Json → List String
  | Json.obj kvs => kvs.map (fun p => p.1)
  | Json.str s => (List.range s.length).map toString
  | _ => []

/-- One line of the compact tools description (route.ts lines 61–79). -/
def descFor (t : McpTool) (schema : Option Json) : String :=
  let d :=
    match t.description with
    | some dd =>
      let d80 := String.mk (dd.toList.take 80)
      if d80 = "" then "No description" else d80
    | none => "No description"
  let base := "- " ++ t.name ++ ": " ++ d
  match schema with
  | some s =>
    if jsTruthy s then
      match jGet s "properties" with
      | some props =>
        if jsTruthy props then
          let ks := (objKeys props).take 5
          if ks ≠ [] then base ++ " (" ++ String.intercalate ", " ks ++ ")" else base
        else base
      | none => base
    else base
  | none => base

/-- `buildToolsDescription` (route.ts lines 53–90). -/
def buildToolsDescription (tws : List (McpTool × Option Json)) (maxTools maxChars : Nat) :
    String :=
  let parts := (tws.take maxTools).map (fun p => descFor p.1 p.2)
  let r1 := String.intercalate "\n" parts
  let r2 :=
    if tws.length > maxTools then
      r1 ++ "\n..." ++ toString (tws.length - maxTools) ++ " more tools"
    else r1
  if r2.length > maxChars then String.mk (r2.toList.take maxChars) ++ "..." else r2

/-- Step 3 of the handler: each tool paired with its fetched schema (with the
integrated client the per-tool fetch never throws, so the catch that would
record `null` is never taken). -/
def toolsWithSchemas (tl : List McpTool) : List (McpTool × Option Json) :=
  tl.map (fun t =>
    (t, match getToolSchemaModel tl t.name with
        | .ok s => some s
        | .error _ => none))

/-- The names in the tool registry. -/
def toolNamesOf (tl : List McpTool) : List String := tl.map (fun t => t.name)

/-- The planning prompt template (route.ts lines 226–253). -/
def planningContent (toolsDescription : String) (pid : Option String) (prompt : String) :
    String :=
  "You are an AI agent specialized in Sitecore. You have access to the following tools:\n\n"
    ++ toolsDescription ++
    "\n\nCRITICAL INSTRUCTIONS:\n" ++
    "1. Analyze the user request in the context of our ongoing conversation and create a DIRECT EXECUTION plan\n" ++
    "2. DO NOT ask for confirmations or additional information - USE THE CONTEXT FROM PREVIOUS MESSAGES\n" ++
    "3. For each step, provide the exact tool name and required parameters\n" ++
    "4. USE EXACT parameter names and structure as shown in each tool's description\n" ++
    "5. If page context is relevant (current page ID: " ++ pageIdDisplay pid ++
    "), use it appropriately\n" ++
    "6. KEEP PowerShell scripts SHORT and SIMPLE - use minimal code\n" ++
    "7. If the user is responding to a previous question, CONTINUE WITH THE EXECUTION based on their response\n" ++
    "8. Respond ONLY with a VALID JSON array of objects. Do NOT include any other text, markdown, or explanations.\n" ++
    "9. Use this EXACT format with double quotes:\n\n" ++
    "[\n  \x7b\n    \"tool\": \"tool-name-step-1\",\n    \"parameters\": \x7b\"param1\": \"value1\", \"param2\": \"value2\"\x7d,\n    \"reasoning\": \"Brief explanation\"\n  \x7d\n]\n\n" ++
    "IMPORTANT: Based on the conversation history, continue directly without repeating previous steps or asking for confirmation.\n\n" ++
    "USER REQUEST: " ++ prompt

/-- Coarse model of `JSON.stringify(results, null, 2)` over opaque results. -/
def stringifyResults (rs : List ToolResult) : String :=
  "[" ++ String.intercalate ",\n" (rs.map (fun r => r.raw)) ++ "]"

/-- The summary prompt appended after the planning messages
(route.ts lines 368–380). -/
def summaryContent (prompt : String) (results : List ToolResult) : String :=
  "The user requested: \"" ++ prompt ++ "\"\n\nI executed " ++
    toString results.length ++ " steps successfully with these results:\n\n" ++
    stringifyResults results ++
    "\n\nBased on our conversation history and the current results, please generate a comprehensive, friendly response that continues our conversation naturally. DO NOT ask for confirmation if we're in the middle of a task - just continue with the next logical steps."

/-- The audit-log lines accumulated before the planning call. -/
def preLogs (env : Env) (tl : List McpTool) : List String :=
  ["Connecting to Sitecore MCP server...",
   "MCP connection established successfully",
   "Fetching available tools from MCP server...",
   "Available tools: " ++ toString tl.length,
   "Fetching tool schemas...",
   "Prompt received: \"" ++ env.prompt ++ "\""] ++
  (match env.pageCtx with
   | some p => ["Page context received with ID: " ++ pageIdDisplay p.pageId]
   | none => []) ++
  ["Conversation history length: " ++ toString env.history.length] ++
  (if env.history.length > 0 then
    ["Added " ++ toString (jsSliceLast env.history 10).length ++
      " previous messages to context"]
  else []) ++
  ["Querying Claude Sonnet 4.5 for execution plan with conversation context..."]

/-- The messages sent to the model for planning. -/
def planMessagesOf (env : Env) (tl : List McpTool) : List ChatMsg :=
  buildPlanMessages env.history
    (planningContent (buildToolsDescription (toolsWithSchemas tl) 20 2000)
      (pageIdOf env.pageCtx) env.prompt)

/-- Engine-defined TypeError message for `undefined[0].type`
(the exact wording is the JS engine's; nothing below depends on it). -/
def typeErrRead : String := "Cannot read properties of undefined"

/-- Engine-defined SyntaxError message of the failed `JSON.parse`
(the exact wording is the JS engine's; nothing below depends on it). -/
def jsonSyntaxErrMsg : String := "Unexpected token in JSON"

/-- `${actionPlan.length}` when the parsed plan is not used as an array. -/
def lenDisplay : Json → String
  | Json.arr l => toString l.length
  | Json.str s => toString s.length
  | _ => "undefined"

/-- Steps 7 of the handler: gateway call, content-block checks, truncation
warning.  Returns the plan text and the log so far, or the failure response. -/
def stagePlanText (env : Env) (tl : List McpTool) : Except Resp (String × List String) :=
  match (sendAnthropicMessages (env.planCreate (planMessagesOf env tl)) 3).result with
  | .error e => .error (.fail (preLogs env tl) e.message)
  | .ok pm =>
    match pm.content with
    | [] => .error (.fail (preLogs env tl) typeErrRead)
    | b :: _ =>
      if b.type = "text" then
        .ok (b.text,
          preLogs env tl ++
            ["Claude response received, length: " ++ toString b.text.length ++ " chars"] ++
            (if pm.stopReason == some "max_tokens" then
              ["Warning: Claude response may be truncated due to token limit"]
            else []))
      else .error (.fail (preLogs env tl) ("Unsupported content type: " ++ b.type))

/-- Step 8: parse the plan, or substitute the fallback plan.  A parse result
that is not an array crashes at `actionPlan.entries()` (a TypeError caught by
the outer handler). -/
def stagePlan (env : Env) (tl : List McpTool) : Except Resp (List Json × List String) :=
  match stagePlanText env tl with
  | .error r => .error r
  | .ok (txt, logs) =>
    match parseClaudeResponse txt.toList with
    | some (Json.arr items) =>
      .ok (items,
        logs ++ ["Action plan parsed successfully with " ++ toString items.length ++ " steps"])
    | some j =>
      .error (.fail
        (logs ++ ["Action plan parsed successfully with " ++ lenDisplay j ++ " steps"])
        "actionPlan.entries is not a function")
    | none =>
      .ok (fallbackPlan (pageIdOf env.pageCtx),
        logs ++ ["Error parsing Claude plan: " ++ jsonSyntaxErrMsg, "Creating fallback plan..."])

/-- Steps 8–10 after a successful connection: plan, execute, summarize.  The
second component is the trace of tool invocations. -/
def postAfterConnect (env : Env) (tl : List McpTool) :
    Resp × List (String × Option Json) :=
  match stagePlan env tl with
  | .error r => (r, [])
  | .ok (plan, logs) =>
    match execSteps (toolNamesOf tl) env.callOracle plan.length plan 0 ⟨[], logs⟩ [] with
    | .error (msg, st, tr) => (.fail st.logs msg, tr)
    | .ok (st, tr) =>
      let logsD := st.logs ++ ["Generating final response with conversation context..."]
      match (sendAnthropicMessages
          (env.summaryCreate (planMessagesOf env tl ++
            [⟨"user", summaryContent env.prompt st.results⟩])) 3).result with
      | .error e => (.fail logsD e.message, tr)
      | .ok fr =>
        match fr.content with
        | [] => (.fail logsD typeErrRead, tr)
        | b :: _ =>
          (Resp.ok (logsD ++ ["🎉 Execution completed successfully"]) plan st.results
            (if b.type = "text" then b.text else "Execution completed successfully."),
           tr)

/-- The whole handler: connection, body, `finally`-guaranteed close.  When the
connection fails the client variable is still `null`, so no `close` event is
emitted; on every other path the trace ends with `close`. -/
def postModel (env : Env) : Resp × List Event :=
  match createSitecoreMCPClient env.connect with
  | .error e => (.fail ["Connecting to Sitecore MCP server..."] e, [])
  | .ok conn =>
    let p := postAfterConnect env (listToolsModel conn)
    (p.1, p.2.map (fun c => Event.call c.1) ++ [Event.close])

/-! ## Claim C7 -/

/-- C7: for a conversation history of length `L`, the planning message
sequence is exactly the last `min L 10` history entries, in their original
order with role and content copied unmodified, followed by the current
prompt; the older entries are the dropped initial segment of the history,
which itself is left unchanged. -/
theorem C7_history_window (h : List HistMsg) (c : String) :
    buildPlanMessages h c =
      (h.drop (h.length - 10)).map (fun m => ChatMsg.mk m.role m.content) ++
        [ChatMsg.mk "user" c] ∧
    (h.drop (h.length - 10)).length = min h.length 10 ∧
    h.take (h.length - 10) ++ h.drop (h.length - 10) = h := by
  refine ⟨?_, ?_, List.take_append_drop _ _⟩
  · by_cases hh : h.length > 0
    · simp [buildPlanMessages, jsSliceLast, hh]
    · have : h = [] := List.length_eq_zero.mp (by omega)
      subst this
      simp [buildPlanMessages, jsSliceLast]
  · simp [List.length_drop]
    omega

/-! ## Claim C5 -/

/-- C5: the gateway retries only on rate-limit failures, sleeping
`500 * 2 ^ (attempt - 1)` and logging one retry line per attempt; a
non-rate-limit failure is re-raised immediately with no sleeps and no retry
lines; with rate-limit failures on attempts 1 and 2 and success on attempt 3
it returns the third result after sleeping 500 then 1000 with exactly two
retry lines; and when all `maxRetries = 3` retries are exhausted it re-raises
the last error after sleeping 500, 1000, 2000. -/
theorem C5_gateway_retry :
    (∀ (create : Nat → Except AnthroErr MsgResp) (e1 e2 : AnthroErr) (r : MsgResp),
      create 0 = .error e1 → isRateLimitErr e1 = true →
      create 1 = .error e2 → isRateLimitErr e2 = true →
      create 2 = .ok r →
      sendAnthropicMessages create 3 =
        ⟨.ok r, [500, 1000], [retryLogLine 500 1 3, retryLogLine 1000 2 3]⟩) ∧
    (∀ (create : Nat → Except AnthroErr MsgResp) (e : AnthroErr),
      create 0 = .error e → isRateLimitErr e = false →
      sendAnthropicMessages create 3 = ⟨.error e, [], []⟩) ∧
    (∀ (create : Nat → Except AnthroErr MsgResp) (e : Nat → AnthroErr),
      (∀ n, n ≤ 3 → create n = .error (e n)) →
      (∀ n, n ≤ 3 → isRateLimitErr (e n) = true) →
      sendAnthropicMessages create 3 =
        ⟨.error (e 3), [500, 1000, 2000],
          [retryLogLine 500 1 3, retryLogLine 1000 2 3, retryLogLine 2000 3 3]⟩) := by
  refine ⟨?_, ?_, ?_⟩
  · intro create e1 e2 r h0 hr1 h1 hr2 h2
    simp [sendAnthropicMessages, sendGo, h0, h1, h2, hr1, hr2]
  · intro create e h0 hr
    simp [sendAnthropicMessages, sendGo, h0, hr]
  · intro create e hc hr
    simp [sendAnthropicMessages, sendGo,
      hc 0 (by omega), hc 1 (by omega), hc 2 (by omega), hc 3 (by omega),
      hr 0 (by omega), hr 1 (by omega), hr 2 (by omega), hr 3 (by omega)]

/-- Concrete rate-limit error for the C5 witness oracle. -/
def rlErrW : AnthroErr := ⟨some 429, none, none, "rate limited"⟩

/-- Concrete successful response for the C5 witness oracle. -/
def okRespW : MsgResp := ⟨[⟨"text", "[]"⟩], none⟩

/-- Oracle failing with rate limits on calls 0 and 1 and succeeding on call 2. -/
def createW : Nat → Except AnthroErr MsgResp :=
  fun n => if n < 2 then .error rlErrW else .ok okRespW

/-- Witness for C5 at the concrete oracle `createW`. -/
theorem C5_witness :
    sendAnthropicMessages createW 3 =
      ⟨.ok okRespW, [500, 1000], [retryLogLine 500 1 3, retryLogLine 1000 2 3]⟩ :=
  C5_gateway_retry.1 createW rlErrW rlErrW okRespW rfl rfl rfl rfl rfl

/-! ## Executor characterization (claims C1 and C9) -/

/-- The three audit lines emitted at the start of every step. -/
def stepLogsPre (total : Nat) (a : Json) (idx : Nat) : List String :=
  ["Executing step " ++ toString (idx + 1) ++ "/" ++ toString total ++ ": " ++
    jsShowOpt (jGet a "tool"),
   "Parameters: " ++ stringifyParams (jGet a "parameters"),
   "Reasoning: " ++ jsShowOpt (jGet a "reasoning")]

/-- Step data for a successful step: its tool name is a string present in the
registry, the transport returns a result, and the result is not an error. -/
def okStepData (names : List String) (call : String → Option Json → CallRes)
    (a : Json) (d : String × ToolResult) : Prop :=
  jGet a "tool" = some (Json.str d.1) ∧ names.contains d.1 = true ∧
    call d.1 (jGet a "parameters") = CallRes.res d.2 ∧ d.2.isError = false

/-- Step data for the failing step: as above but the transport result has
`isError : true`. -/
def failStepData (names : List String) (call : String → Option Json → CallRes)
    (a : Json) (d : String × ToolResult) : Prop :=
  jGet a "tool" = some (Json.str d.1) ∧ names.contains d.1 = true ∧
    call d.1 (jGet a "parameters") = CallRes.res d.2 ∧ d.2.isError = true

/-- Audit lines produced by a run of successful steps. -/
def runLogs (total : Nat) : Nat → List Json → List (String × ToolResult) → List String
  | _, [], _ => []
  | _, _ :: _, [] => []
  | idx, a :: pre, _ :: data =>
    stepLogsPre total a idx ++
      ["Step " ++ toString (idx + 1) ++ " completed successfully"] ++
      runLogs total (idx + 1) pre data

/-- Invocations performed by a run of successful steps. -/
def runTrace (pre : List Json) (data : List (String × ToolResult)) :
    List (String × Option Json) :=
  (pre.zip data).map (fun p => (p.2.1, jGet p.1 "parameters"))

theorem execSteps_ok_step (names : List String) (call : String → Option Json → CallRes)
    (total : Nat) (a : Json) (rest : List Json) (idx : Nat) (st : ExecSt)
    (tr : List (String × Option Json)) (d : String × ToolResult)
    (h : okStepData names call a d) :
    execSteps names call total (a :: rest) idx st tr =
      execSteps names call total rest (idx + 1)
        ⟨st.results ++ [d.2],
         st.logs ++ stepLogsPre total a idx ++
           ["Step " ++ toString (idx + 1) ++ " completed successfully"]⟩
        (tr ++ [(d.1, jGet a "parameters")]) := by
  obtain ⟨h1, h2, h3, h4⟩ := h
  have hmem : d.1 ∈ names := by simpa using h2
  simp [execSteps, h1, hmem, h3, h4, stepLogsPre]

theorem execSteps_fail_step (names : List String) (call : String → Option Json → CallRes)
    (total : Nat) (a : Json) (rest : List Json) (idx : Nat) (st : ExecSt)
    (tr : List (String × Option Json)) (d : String × ToolResult)
    (h : failStepData names call a d) :
    execSteps names call total (a :: rest) idx st tr =
      .error ("Error executing tool " ++ d.1 ++ ": " ++
          ("Error in step " ++ toString (idx + 1) ++ ": " ++ d.2.raw),
        ⟨st.results ++ [d.2],
         st.logs ++ stepLogsPre total a idx ++
           ["Step " ++ toString (idx + 1) ++ " completed successfully",
            "Step " ++ toString (idx + 1) ++ " returned error: " ++ d.2.raw,
            "Error executing tool " ++ d.1 ++ ": " ++
              ("Error in step " ++ toString (idx + 1) ++ ": " ++ d.2.raw)]⟩,
        tr ++ [(d.1, jGet a "parameters")]) := by
  obtain ⟨h1, h2, h3, h4⟩ := h
  have hmem : d.1 ∈ names := by simpa using h2
  simp [execSteps, h1, hmem, h3, h4, stepLogsPre]

theorem execSteps_run_front (names : List String) (call : String → Option Json → CallRes)
    (total : Nat) {pre : List Json} {data : List (String × ToolResult)}
    (hf : List.Forall₂ (okStepData names call) pre data) :
    ∀ (rest : List Json) (idx : Nat) (st : ExecSt) (tr : List (String × Option Json)),
    execSteps names call total (pre ++ rest) idx st tr =
      execSteps names call total rest (idx + pre.length)
        ⟨st.results ++ data.map Prod.snd, st.logs ++ runLogs total idx pre data⟩
        (tr ++ runTrace pre data) := by
  induction hf with
  | nil =>
    intro rest idx st tr
    simp [runLogs, runTrace]
  | @cons a d pre' data' h hrest ih =>
    intro rest idx st tr
    rw [List.cons_append, execSteps_ok_step names call total a (pre' ++ rest) idx st tr d h, ih]
    have hidx : idx + 1 + pre'.length = idx + (pre'.length + 1) := by omega
    simp [runLogs, runTrace, hidx, List.append_assoc]

/-- The message of the error thrown when step `idx` (0-based) returns
`isError : true`, after the catch block rewraps it. -/
def failMsgAt (idx : Nat) (d : String × ToolResult) : String :=
  "Error executing tool " ++ d.1 ++ ": " ++
    ("Error in step " ++ toString (idx + 1) ++ ": " ++ d.2.raw)

/-- The audit lines appended by the failing step after its three step-start
lines: the success line, the returned-error line, then the rethrow line. -/
def failLogsAt (idx : Nat) (d : String × ToolResult) : List String :=
  ["Step " ++ toString (idx + 1) ++ " completed successfully",
   "Step " ++ toString (idx + 1) ++ " returned error: " ++ d.2.raw,
   "Error executing tool " ++ d.1 ++ ": " ++
     ("Error in step " ++ toString (idx + 1) ++ ": " ++ d.2.raw)]

/-- The collected results at the moment an executor run aborts. -/
def execResultsOnFail
    (r : Except (String × ExecSt × List (String × Option Json))
      (ExecSt × List (String × Option Json))) : Option (List ToolResult) :=
  match r with
  | .error (_, st, _) => some st.results
  | .ok _ => none

/-! ## Claim C1 -/

/-- A planned action invoking the named tool with empty parameters. -/
def mkActW (s : String) : Json :=
  Json.obj [("tool", Json.str s), ("parameters", Json.obj []), ("reasoning", Json.str "r")]

/-- Tool registry of the concrete three-step scenario. -/
def cxNames : List String := ["a", "b", "c"]

/-- Transport of the concrete scenario: tool `b` reports `isError : true`. -/
def cxCall : String → Option Json → CallRes := fun s _ =>
  if s = "b" then CallRes.res ⟨true, "boom"⟩ else CallRes.res ⟨false, "fine"⟩

/-- The concrete three-step plan `a`, `b`, `c`. -/
def cxPlan : List Json := [mkActW "a", mkActW "b", mkActW "c"]

/-- C1 counterexample: for the three-step plan whose step 2 reports
`isError : true`, the executor aborts having collected TWO results (step 1's
and step 2's own erroring result), not "exactly one result, that of step 1"
as the claim states: the failing result is pushed before the error check. -/
theorem C1_counterexample :
    execResultsOnFail (execSteps cxNames cxCall 3 cxPlan 0 ⟨[], []⟩ []) =
      some [⟨false, "fine"⟩, ⟨true, "boom"⟩] ∧
    ([(⟨false, "fine"⟩ : ToolResult), ⟨true, "boom"⟩].length ≠ 1) := by
  exact ⟨rfl, by decide⟩

/-- C1 (amended): when the transport's result for step `i` has
`isError : true` and all earlier steps succeeded, execution fails immediately
with an error embedding the 1-based step index, no later step is invoked (the
invocation trace covers exactly steps `1..i`), and the collected result
sequence contains the results of steps `1..i` — that is, the results of the
completed earlier steps AND the erroring result of step `i` itself, `i`
results in total (two for a 3-step plan failing at step 2), not `i - 1`; the
request-level failure response carries only the audit log, not the results. -/
theorem C1_executor_failfast (names : List String) (call : String → Option Json → CallRes)
    (total : Nat) (pre : List Json) (a : Json) (rest : List Json)
    (data : List (String × ToolResult)) (d : String × ToolResult) (logs0 : List String)
    (hpre : List.Forall₂ (okStepData names call) pre data)
    (hf : failStepData names call a d) :
    execSteps names call total (pre ++ a :: rest) 0 ⟨[], logs0⟩ [] =
      .error (failMsgAt pre.length d,
        ⟨data.map Prod.snd ++ [d.2],
         logs0 ++ runLogs total 0 pre data ++ stepLogsPre total a pre.length ++
           failLogsAt pre.length d⟩,
        runTrace pre data ++ [(d.1, jGet a "parameters")]) ∧
    (data.map Prod.snd ++ [d.2]).length = pre.length + 1 := by
  constructor
  · rw [execSteps_run_front names call total hpre,
      execSteps_fail_step names call total a rest (0 + pre.length) _ _ d hf]
    simp [failMsgAt, failLogsAt, List.append_assoc]
  · simp [hpre.length_eq]

/-- Witness for C1 at the concrete three-step scenario. -/
theorem C1_witness :
    List.Forall₂ (okStepData cxNames cxCall) [mkActW "a"]
      [("a", (⟨false, "fine"⟩ : ToolResult))] ∧
    failStepData cxNames cxCall (mkActW "b") ("b", (⟨true, "boom"⟩ : ToolResult)) ∧
    (execSteps cxNames cxCall 3 ([mkActW "a"] ++ mkActW "b" :: [mkActW "c"]) 0 ⟨[], []⟩ [] =
      .error (failMsgAt [mkActW "a"].length ("b", (⟨true, "boom"⟩ : ToolResult)),
        ⟨[("a", (⟨false, "fine"⟩ : ToolResult))].map Prod.snd ++
            [(⟨true, "boom"⟩ : ToolResult)],
         [] ++ runLogs 3 0 [mkActW "a"] [("a", ⟨false, "fine"⟩)] ++
           stepLogsPre 3 (mkActW "b") [mkActW "a"].length ++
           failLogsAt [mkActW "a"].length ("b", ⟨true, "boom"⟩)⟩,
        runTrace [mkActW "a"] [("a", ⟨false, "fine"⟩)] ++
          [("b", jGet (mkActW "b") "parameters")]) ∧
      ([("a", (⟨false, "fine"⟩ : ToolResult))].map Prod.snd ++
          [(⟨true, "boom"⟩ : ToolResult)]).length = [mkActW "a"].length + 1) := by
  refine ⟨List.Forall₂.cons ⟨rfl, rfl, rfl, rfl⟩ List.Forall₂.nil, ⟨rfl, rfl, rfl, rfl⟩, ?_⟩
  exact C1_executor_failfast cxNames cxCall 3 [mkActW "a"] (mkActW "b") [mkActW "c"]
    [("a", ⟨false, "fine"⟩)] ("b", ⟨true, "boom"⟩) []
    (List.Forall₂.cons ⟨rfl, rfl, rfl, rfl⟩ List.Forall₂.nil) ⟨rfl, rfl, rfl, rfl⟩

/-! ## Claim C9 -/

/-- C9: when step `i` returns a result with `isError : true`, that erroring
result has already been appended to the collected results (it is the last
collected result) and the "completed successfully" audit line for the step
was recorded immediately before the "returned error" line: the success line
sits at the position right before the error line in the final log. -/
theorem C9_error_result_recorded (names : List String)
    (call : String → Option Json → CallRes) (total : Nat) (pre : List Json) (a : Json)
    (rest : List Json) (data : List (String × ToolResult)) (d : String × ToolResult)
    (logs0 : List String)
    (hpre : List.Forall₂ (okStepData names call) pre data)
    (hf : failStepData names call a d) :
    execSteps names call total (pre ++ a :: rest) 0 ⟨[], logs0⟩ [] =
      .error (failMsgAt pre.length d,
        ⟨data.map Prod.snd ++ [d.2],
         (logs0 ++ runLogs total 0 pre data ++ stepLogsPre total a pre.length) ++
           failLogsAt pre.length d⟩,
        runTrace pre data ++ [(d.1, jGet a "parameters")]) ∧
    (data.map Prod.snd ++ [d.2]).getLast? = some d.2 ∧
    ((logs0 ++ runLogs total 0 pre data ++ stepLogsPre total a pre.length) ++
        failLogsAt pre.length d)[(logs0 ++ runLogs total 0 pre data ++
          stepLogsPre total a pre.length).length]? =
      some ("Step " ++ toString (pre.length + 1) ++ " completed successfully") ∧
    ((logs0 ++ runLogs total 0 pre data ++ stepLogsPre total a pre.length) ++
        failLogsAt pre.length d)[(logs0 ++ runLogs total 0 pre data ++
          stepLogsPre total a pre.length).length + 1]? =
      some ("Step " ++ toString (pre.length + 1) ++ " returned error: " ++ d.2.raw) := by
  refine ⟨?_, List.getLast?_concat _, ?_, ?_⟩
  · rw [execSteps_run_front names call total hpre,
      execSteps_fail_step names call total a rest (0 + pre.length) _ _ d hf]
    simp [failMsgAt, failLogsAt, List.append_assoc]
  · rw [List.getElem?_append_right (by omega)]
    simp [failLogsAt]
  · rw [List.getElem?_append_right (by omega)]
    simp [failLogsAt]

/-- Witness for C9 at the concrete three-step scenario. -/
theorem C9_witness :
    List.Forall₂ (okStepData cxNames cxCall) [mkActW "a"]
      [("a", (⟨false, "fine"⟩ : ToolResult))] ∧
    failStepData cxNames cxCall (mkActW "b") ("b", (⟨true, "boom"⟩ : ToolResult)) ∧
    (([("a", (⟨false, "fine"⟩ : ToolResult))].map Prod.snd ++
        [(⟨true, "boom"⟩ : ToolResult)]).getLast? =
      some (⟨true, "boom"⟩ : ToolResult)) := by
  refine ⟨List.Forall₂.cons ⟨rfl, rfl, rfl, rfl⟩ List.Forall₂.nil, ⟨rfl, rfl, rfl, rfl⟩, ?_⟩
  exact (C9_error_result_recorded cxNames cxCall 3 [mkActW "a"] (mkActW "b") [mkActW "c"]
    [("a", ⟨false, "fine"⟩)] ("b", ⟨true, "boom"⟩) []
    (List.Forall₂.cons ⟨rfl, rfl, rfl, rfl⟩ List.Forall₂.nil) ⟨rfl, rfl, rfl, rfl⟩).2.1

/-! ## Claim C8 -/

theorem count_close_map_call (l : List (String × Option Json)) :
    (l.map (fun c => Event.call c.1)).count Event.close = 0 := by
  induction l with
  | nil => rfl
  | cons h t ih => simpa using ih

/-- C8: once the connection is established, the transport trace of the
request ends with exactly one `close` event — `close()` runs on every exit
path, after all tool calls, before the response is produced — and the
response is exactly one terminal outcome: a success exactly when it is not a
structured failure. -/
theorem C8_close_released (env : Env) (conn : McpConn)
    (hc : createSitecoreMCPClient env.connect = .ok conn) :
    ((postModel env).2.count Event.close = 1) ∧
    ((postModel env).2.getLast? = some Event.close) ∧
    ((∃ l p r s, (postModel env).1 = Resp.ok l p r s) ↔
      ¬ ∃ l d, (postModel env).1 = Resp.fail l d) := by
  have hpost : postModel env =
      ((postAfterConnect env (listToolsModel conn)).1,
        (postAfterConnect env (listToolsModel conn)).2.map (fun c => Event.call c.1) ++
          [Event.close]) := by
    simp [postModel, hc]
  rw [hpost]
  refine ⟨?_, ?_, ?_⟩
  · rw [List.count_append, count_close_map_call]
    rfl
  · exact List.getLast?_concat _
  · cases hr : (postAfterConnect env (listToolsModel conn)).1 with
    | ok l p r s =>
      constructor
      · intro _
        rintro ⟨l', d', hcontra⟩
        exact Resp.noConfusion hcontra
      · intro _
        exact ⟨l, p, r, s, rfl⟩
    | fail l d =>
      constructor
      · rintro ⟨l', p', r', s', hcontra⟩
        exact absurd hcontra (by intro h; exact Resp.noConfusion h)
      · intro hn
        exact absurd ⟨l, d, rfl⟩ hn

/-- A tool exposing an input schema, used by the concrete environments. -/
def toolT1 : McpTool := ⟨"t1", some "tool one", some emptyObjectSchema, none⟩

/-- A plan text invoking `t1`, returned by the concrete plan oracle. -/
def planTextW : String :=
  "[\x7b\"tool\":\"t1\",\"parameters\":\x7b\x7d,\"reasoning\":\"r\"\x7d]"

/-- An environment where everything succeeds. -/
def envOk : Env :=
  ⟨.ok [toolT1], fun _ _ => CallRes.res ⟨false, "ok"⟩, "do it", none, [],
   fun _ _ => .ok ⟨[⟨"text", planTextW⟩], some "end_turn"⟩,
   fun _ _ => .ok ⟨[⟨"text", "done."⟩], some "end_turn"⟩⟩

/-- Witness for C8 at the concrete fully-successful environment. -/
theorem C8_witness :
    createSitecoreMCPClient envOk.connect = .ok ⟨[toolT1]⟩ ∧
    (postModel envOk).2.count Event.close = 1 ∧
    (postModel envOk).2.getLast? = some Event.close := by
  have h := C8_close_released envOk ⟨[toolT1]⟩ rfl
  exact ⟨rfl, h.1, h.2.1⟩

/-! ## Claim C2 -/

/-- Whether the response models the success JSON body. -/
def respIsSuccess : Resp → Bool
  | Resp.ok _ _ _ _ => true
  | Resp.fail _ _ => false

/-- The `response` text of a success body. -/
def respText : Resp → Option String
  | Resp.ok _ _ _ t => some t
  | Resp.fail _ _ => none

/-- The `details` field of a failure body. -/
def respFailDetails : Resp → Option String
  | Resp.fail _ d => some d
  | Resp.ok _ _ _ _ => none

/-- The `results` field of a success body. -/
def respResults : Resp → Option (List ToolResult)
  | Resp.ok _ _ r _ => some r
  | Resp.fail _ _ => none

/-- Whether the plan stage and the execution stage both succeed. -/
def execOutcomeOk (env : Env) (tl : List McpTool) : Bool :=
  match stagePlan env tl with
  | .ok (plan, logs) =>
    match execSteps (toolNamesOf tl) env.callOracle plan.length plan 0 ⟨[], logs⟩ [] with
    | .ok _ => true
    | .error _ => false
  | .error _ => false

/-- Environment whose plan executes fully but whose summary model call
throws. -/
def envC2 : Env :=
  ⟨.ok [toolT1], fun _ _ => CallRes.res ⟨false, "ok"⟩, "do it", none, [],
   fun _ _ => .ok ⟨[⟨"text", planTextW⟩], some "end_turn"⟩,
   fun _ _ => .error ⟨some 500, none, none, "summary boom"⟩⟩

/-- C2 counterexample: the plan executes fully without error, yet a thrown
summary-call failure makes the whole request fail (`success:false` with the
summary error as details) instead of returning success with a generic
message: the generic fallback only covers a non-text content block, not a
thrown model error. -/
theorem C2_counterexample :
    execOutcomeOk envC2 [toolT1] = true ∧
    respIsSuccess (postModel envC2).1 = false ∧
    respFailDetails (postModel envC2).1 = some "summary boom" :=
  ⟨rfl, rfl, rfl⟩

/-- C2 (amended): after a fully successful execution, a summary response
whose first content block is not text does not fail the request — the
orchestrator returns success, substituting the generic completion message —
but a summary model call that throws fails the whole request. -/
theorem C2_summary_nontext_fallback (env : Env) (tl : List McpTool) (plan : List Json)
    (logs : List String) (st : ExecSt) (tr : List (String × Option Json))
    (fr : MsgResp) (b : ContentBlock) (bs : List ContentBlock)
    (hc : createSitecoreMCPClient env.connect = .ok ⟨tl⟩)
    (hp : stagePlan env tl = .ok (plan, logs))
    (he : execSteps (toolNamesOf tl) env.callOracle plan.length plan 0 ⟨[], logs⟩ [] =
      .ok (st, tr))
    (hs : (sendAnthropicMessages (env.summaryCreate (planMessagesOf env tl ++
        [⟨"user", summaryContent env.prompt st.results⟩])) 3).result = .ok fr)
    (hcontent : fr.content = b :: bs) (hb : b.type ≠ "text") :
    respIsSuccess (postModel env).1 = true ∧
    respText (postModel env).1 = some "Execution completed successfully." ∧
    respResults (postModel env).1 = some st.results := by
  have h1 : (postModel env).1 =
      Resp.ok ((st.logs ++ ["Generating final response with conversation context..."]) ++
        ["🎉 Execution completed successfully"]) plan st.results
        "Execution completed successfully." := by
    simp [postModel, hc, listToolsModel, postAfterConnect, hp, he, hs, hcontent, hb]
  simp [h1, respIsSuccess, respText, respResults]

/-- Environment whose summary call returns a non-text content block. -/
def envC2W : Env :=
  ⟨.ok [toolT1], fun _ _ => CallRes.res ⟨false, "ok"⟩, "do it", none, [],
   fun _ _ => .ok ⟨[⟨"text", planTextW⟩], some "end_turn"⟩,
   fun _ _ => .ok ⟨[⟨"tool_use", ""⟩], none⟩⟩

/-- Witness for C2 at the concrete non-text summary environment. -/
theorem C2_witness :
    respIsSuccess (postModel envC2W).1 = true ∧
    respText (postModel envC2W).1 = some "Execution completed successfully." := by
  have h := C2_summary_nontext_fallback envC2W [toolT1] _ _ _ _ _ _ _
    rfl rfl rfl rfl rfl (by decide)
  exact ⟨h.1, h.2.1⟩

/-! ## Claim C6 -/

/-- The plan a successful plan stage hands to the executor. -/
def planOfStage : Except Resp (List Json × List String) → Option (List Json)
  | .ok (p, _) => some p
  | .error _ => none

/-- Environment whose model output is unparseable and whose page context
carries the (present but empty) identifier `""`. -/
def envC6 : Env :=
  ⟨.ok [toolT1], fun _ _ => CallRes.res ⟨false, "ok"⟩, "p", some ⟨some ""⟩, [],
   fun _ _ => .ok ⟨[⟨"text", "garbage"⟩], none⟩,
   fun _ _ => .ok ⟨[⟨"text", "done."⟩], none⟩⟩

/-- C6 counterexample: with an unparseable model output and a page-context
identifier present in the request but equal to `""`, the substituted fallback
plan's parameters do NOT include the identifier (the JS truthiness guard
drops the empty string), refuting "include the page-context identifier
exactly when one is present in the request". -/
theorem C6_counterexample :
    planOfStage (stagePlan envC6 [toolT1]) = some (fallbackPlan (some "")) ∧
    pageIdOf envC6.pageCtx = some "" ∧
    jGet ((fallbackPlan (some "")).headD Json.null) "parameters" =
      some (Json.obj [("page", mkNum 1 0), ("pageSize", mkNum 10 0)]) ∧
    jGet (Json.obj [("page", mkNum 1 0), ("pageSize", mkNum 10 0)]) "itemId" = none :=
  ⟨rfl, rfl, rfl, rfl⟩

/-- C6 (amended): when the model output cannot be parsed by any recovery
strategy, the orchestrator does not fail the request at the parsing stage:
the plan stage still succeeds, substituting the fallback plan — a single
`content_items.list` action — whose parameters include the page-context
identifier exactly when one is present AND non-empty (JS truthiness). -/
theorem C6_fallback_plan (env : Env) (tl : List McpTool) (txt : String) (logs : List String)
    (hstage : stagePlanText env tl = .ok (txt, logs))
    (hparse : parseClaudeResponse txt.toList = none) :
    stagePlan env tl = .ok (fallbackPlan (pageIdOf env.pageCtx),
      logs ++ ["Error parsing Claude plan: " ++ jsonSyntaxErrMsg,
        "Creating fallback plan..."]) ∧
    jGet ((fallbackPlan (pageIdOf env.pageCtx)).headD Json.null) "tool" =
      some (Json.str "content_items.list") ∧
    (∀ pid : Option String,
      jGet ((fallbackPlan pid).headD Json.null) "parameters" =
        some (Json.obj ([("page", mkNum 1 0), ("pageSize", mkNum 10 0)] ++
          (if truthyId pid then [("itemId", Json.str (pid.getD ""))] else []))) ∧
      (jGet (Json.obj ([("page", mkNum 1 0), ("pageSize", mkNum 10 0)] ++
          (if truthyId pid then [("itemId", Json.str (pid.getD ""))] else [])))
          "itemId").isSome = truthyId pid) := by
  refine ⟨?_, rfl, ?_⟩
  · have hparse' : parseClaudeResponse txt.data = none := hparse
    simp [stagePlan, hstage, hparse']
  · intro pid
    refine ⟨rfl, ?_⟩
    rcases pid with _ | s
    · rfl
    · by_cases hs : s = ""
      · subst hs
        rfl
      · have ht : truthyId (some s) = true := by simp [truthyId, hs]
        rw [ht]
        simp [jGet]

/-- Witness for C6 at the unparseable-output environment. -/
theorem C6_witness :
    jGet ((fallbackPlan (pageIdOf envC6.pageCtx)).headD Json.null) "tool" =
      some (Json.str "content_items.list") := by
  have h := C6_fallback_plan envC6 [toolT1] _ _ rfl rfl
  exact h.2.1

/-! ## Claim C10 -/

/-- Well-formedness of the fetched tool list: schema fields, when present,
are JS-truthy values (in practice, JSON schema objects). -/
def wfTool (t : McpTool) : Bool :=
  (match t.inputSchema with
   | some s => jsTruthy s
   | none => true) &&
  (match t.parameters with
   | some p => jsTruthy p
   | none => true)

/-- Whether the call threw. -/
def exceptThrew : Except String Json → Bool
  | .error _ => true
  | .ok _ => false

/-- C10: the client resolves `getToolSchema` purely from the snapshot taken
at connection time — `listTools` returns that same snapshot, `getToolSchema`
throws exactly when the name is absent from it, and otherwise returns the
found tool's `inputSchema` if present, else its `parameters`, else the
wrapper embedding the schema inferred from the tool name; a name matching no
known pattern infers the empty-object schema. -/
theorem C10_getToolSchema (tl : List McpTool) (hwf : tl.all wfTool = true) :
    (∀ conn, createSitecoreMCPClient (.ok tl) = .ok conn → listToolsModel conn = tl) ∧
    (∀ name, exceptThrew (getToolSchemaModel tl name) = true ↔ ∀ t ∈ tl, t.name ≠ name) ∧
    (∀ name t, tl.find? (fun t' => t'.name == name) = some t →
      ((∀ s, t.inputSchema = some s → getToolSchemaModel tl name = .ok s) ∧
       (t.inputSchema = none → ∀ p, t.parameters = some p →
         getToolSchemaModel tl name = .ok p) ∧
       (t.inputSchema = none → t.parameters = none →
         getToolSchemaModel tl name = .ok (wrappedInferred t)))) ∧
    (∀ n, (∀ pat ∈ parameterPatterns,
        strIncludes n pat.1 = false ∧ strIncludes pat.1 n = false) →
      inferParametersFromToolName n = emptyObjectSchema) := by
  refine ⟨?_, ?_, ?_, ?_⟩
  · intro conn hconn
    cases hconn
    rfl
  · intro name
    cases hfind : tl.find? (fun t' => t'.name == name) with
    | none =>
      simp [getToolSchemaModel, hfind, exceptThrew]
      intro t ht
      have := List.find?_eq_none.mp hfind t ht
      simpa using this
    | some t =>
      simp [getToolSchemaModel, hfind, exceptThrew]
      refine ⟨t, List.mem_of_find?_eq_some hfind, ?_⟩
      have := List.find?_some hfind
      simpa using this
  · intro name t hfind
    have hmem : t ∈ tl := List.mem_of_find?_eq_some hfind
    have hwt : wfTool t = true := List.all_eq_true.mp hwf t hmem
    refine ⟨?_, ?_, ?_⟩
    · intro s hsi
      have hts : jsTruthy s = true := by
        have h' := hwt
        simp only [wfTool, hsi, Bool.and_eq_true] at h'
        exact h'.1
      simp [getToolSchemaModel, hfind, schemaOfTool, hsi, hts]
    · intro hsi p hpp
      have htp : jsTruthy p = true := by
        have h' := hwt
        simp only [wfTool, hsi, hpp, Bool.and_eq_true] at h'
        exact h'.2
      simp [getToolSchemaModel, hfind, schemaOfTool, hsi, hpp, htp]
    · intro hsi hpp
      simp [getToolSchemaModel, hfind, schemaOfTool, hsi, hpp]
  · intro n hn
    have hfind : parameterPatterns.find?
        (fun p => strIncludes n p.1 || strIncludes p.1 n) = none := by
      apply List.find?_eq_none.mpr
      intro p hp
      simp [(hn p hp).1, (hn p hp).2]
    simp [inferParametersFromToolName, hfind]

/-- A tool exposing an explicit input schema. -/
def tSchemaW : McpTool := ⟨"alpha", some "d", some emptyObjectSchema, none⟩

/-- A tool exposing only legacy `parameters`. -/
def tParamsW : McpTool := ⟨"beta", none, none, some schemaGetItemByPath⟩

/-- A tool exposing neither, with a name matching no known pattern. -/
def tNoneW : McpTool := ⟨"zzz-unmatched", none, none, none⟩

/-- Concrete snapshot for the C10 witness. -/
def tlW : List McpTool := [tSchemaW, tParamsW, tNoneW]

/-- Witness for C10 at the concrete snapshot. -/
theorem C10_witness :
    tlW.all wfTool = true ∧
    getToolSchemaModel tlW "alpha" = .ok emptyObjectSchema ∧
    getToolSchemaModel tlW "beta" = .ok schemaGetItemByPath ∧
    getToolSchemaModel tlW "zzz-unmatched" = .ok (wrappedInferred tNoneW) ∧
    inferParametersFromToolName "zzz-unmatched" = emptyObjectSchema := by
  have h := C10_getToolSchema tlW rfl
  refine ⟨rfl, ?_, ?_, ?_, ?_⟩
  · exact (h.2.2.1 "alpha" tSchemaW rfl).1 emptyObjectSchema rfl
  · exact (h.2.2.1 "beta" tParamsW rfl).2.1 rfl schemaGetItemByPath rfl
  · exact (h.2.2.1 "zzz-unmatched" tNoneW rfl).2.2 rfl rfl
  · exact h.2.2.2 "zzz-unmatched" (by decide)

/-! ## A flat plan grammar (claims C3 and C4)

Claims C3 and C4 quantify over plan texts.  To reason about the interaction
of the recovery regex with `JSON.parse` we fix a grammar of rendered plans:
arrays of flat objects whose keys and string values avoid the structural
delimiters the recovery regexes react to (braces, brackets, quotes,
backslashes, backticks, control characters).  `renderPlanT` renders such a
plan without whitespace, exactly as a model would print a compact JSON
array. -/

/-- Characters allowed inside keys and string values of the flat grammar. -/
def safeChar (c : Char) : Bool :=
  32 ≤ c.toNat && c != '{' && c != '}' && c != '[' && c != ']' &&
    c != '"' && c != '\\' && c != btick

/-- All characters safe. -/
def safeStr (s : List Char) : Bool := s.all safeChar

/-- A flat object: an association list of key/value strings. -/
abbrev Flds := List (List Char × List Char)

/-- All keys and values safe. -/
def fldsSafe (flds : Flds) : Bool := flds.all (fun p => safeStr p.1 && safeStr p.2)

/-- `"key":"value"`. -/
def renderField (p : List Char × List Char) : List Char :=
  '"' :: p.1 ++ '"' :: ':' :: '"' :: p.2 ++ ['"']

/-- Comma-separated members. -/
def renderFields : Flds → List Char
  | [] => []
  | [p] => renderField p
  | p :: ps => renderField p ++ ',' :: renderFields ps

/-- A rendered flat object. -/
def renderObjT (flds : Flds) : List Char := '{' :: renderFields flds ++ ['}']

/-- The JSON value of a flat object, matching the parser's member fold. -/
def fieldsVal (flds : Flds) : Json :=
  Json.obj (flds.foldl
    (fun a p => objInsert a (String.mk p.1) (Json.str (String.mk p.2))) [])

/-- Comma-separated rendered objects. -/
def renderPlanBody : List Flds → List Char
  | [] => []
  | [o] => renderObjT o
  | o :: os => renderObjT o ++ ',' :: renderPlanBody os

/-- A rendered plan array. -/
def renderPlanT (objs : List Flds) : List Char := '[' :: renderPlanBody objs ++ [']']

/-- The JSON value of a rendered plan. -/
def planVal (objs : List Flds) : Json := Json.arr (objs.map fieldsVal)

/-- All objects safe. -/
def plansSafe (objs : List Flds) : Bool := objs.all fldsSafe

/-- Characters that are none of the delimiters the scanners react to. -/
def plainChar (c : Char) : Bool :=
  c != '{' && c != '}' && c != '[' && c != ']' && c != btick

/-- Characters allowed between objects of a plan body (braces included). -/
def bodyChar (c : Char) : Bool := c != '[' && c != ']' && c != btick

theorem not_mem_of_all_char {l : List Char} {p : Char → Bool} {c : Char}
    (h : l.all p = true) (hc : p c = false) : c ∉ l := by
  intro hmem
  have := List.all_eq_true.mp h c hmem
  rw [hc] at this
  exact Bool.noConfusion this

theorem all_imp_char {p q : Char → Bool} (h : ∀ c, p c = true → q c = true) :
    {l : List Char} → l.all p = true → l.all q = true := by
  intro l hl
  exact List.all_eq_true.mpr (fun c hc => h c (List.all_eq_true.mp hl c hc))

theorem safeChar_plain : ∀ {c : Char}, safeChar c = true → plainChar c = true := by
  intro c h
  simp only [safeChar, Bool.and_eq_true] at h
  simp only [plainChar, Bool.and_eq_true]
  tauto

theorem plainChar_body : ∀ {c : Char}, plainChar c = true → bodyChar c = true := by
  intro c h
  simp only [plainChar, Bool.and_eq_true] at h
  simp only [bodyChar, Bool.and_eq_true]
  tauto

theorem renderField_plain {p : List Char × List Char}
    (h1 : safeStr p.1 = true) (h2 : safeStr p.2 = true) :
    (renderField p).all plainChar = true := by
  have a1 : p.1.all plainChar = true := all_imp_char (fun c => safeChar_plain) h1
  have a2 : p.2.all plainChar = true := all_imp_char (fun c => safeChar_plain) h2
  simp [renderField, List.all_append, a1, a2]
  decide

theorem renderFields_plain {flds : Flds} (h : fldsSafe flds = true) :
    (renderFields flds).all plainChar = true := by
  induction flds with
  | nil => rfl
  | cons p ps ih =>
    have hp := List.all_eq_true.mp h p (by simp)
    have hp1 : safeStr p.1 = true := by
      simp only [Bool.and_eq_true] at hp
      exact hp.1
    have hp2 : safeStr p.2 = true := by
      simp only [Bool.and_eq_true] at hp
      exact hp.2
    have hps : fldsSafe ps = true :=
      List.all_eq_true.mpr (fun q hq => List.all_eq_true.mp h q (by simp [hq]))
    have hf := renderField_plain hp1 hp2
    cases ps with
    | nil => simpa [renderFields] using hf
    | cons q qs =>
      have ih' := ih hps
      simp [renderFields, List.all_append, hf, ih']
      decide

theorem renderObjT_body {o : Flds} (ho : fldsSafe o = true) :
    (renderObjT o).all bodyChar = true := by
  have hin : (renderFields o).all bodyChar = true :=
    all_imp_char (fun c => plainChar_body) (renderFields_plain ho)
  simp [renderObjT, List.all_append, hin]
  decide

theorem renderPlanBody_chars {objs : List Flds} (h : plansSafe objs = true) :
    (renderPlanBody objs).all bodyChar = true := by
  induction objs with
  | nil => rfl
  | cons o os ih =>
    have ho : fldsSafe o = true := List.all_eq_true.mp h o (by simp)
    have hos : plansSafe os = true :=
      List.all_eq_true.mpr (fun q hq => List.all_eq_true.mp h q (by simp [hq]))
    cases os with
    | nil => simpa [renderPlanBody] using renderObjT_body ho
    | cons o2 os2 =>
      have ih2 := ih hos
      simp [renderPlanBody, List.all_append, renderObjT_body ho, ih2]
      decide

theorem plainChar_ne_open {c : Char} (h : plainChar c = true) : c ≠ '{' := by
  simp only [plainChar, Bool.and_eq_true, bne_iff_ne] at h
  tauto

theorem plainChar_ne_close {c : Char} (h : plainChar c = true) : c ≠ '}' := by
  simp only [plainChar, Bool.and_eq_true, bne_iff_ne] at h
  tauto

theorem bodyChar_ne_lb {c : Char} (h : bodyChar c = true) : c ≠ '[' := by
  simp only [bodyChar, Bool.and_eq_true, bne_iff_ne] at h
  tauto

theorem bodyChar_ne_rb {c : Char} (h : bodyChar c = true) : c ≠ ']' := by
  simp only [bodyChar, Bool.and_eq_true, bne_iff_ne] at h
  tauto

theorem bodyChar_ne_tick {c : Char} (h : bodyChar c = true) : c ≠ btick := by
  simp only [bodyChar, Bool.and_eq_true, bne_iff_ne] at h
  tauto

/-! ### Behaviour of the object-boundary scanner on rendered plans -/

theorem tryMatchObj_none {cs : List Char} (h : ∀ c ∈ cs, c ≠ '}') :
    ∀ acc, tryMatchObj acc cs = none := by
  induction cs with
  | nil => intro acc; rfl
  | cons c r ih =>
    intro acc
    have hc : c ≠ '}' := h c (by simp)
    simp only [tryMatchObj]
    rw [if_neg (by rintro ⟨h1, _⟩; exact hc h1)]
    exact ih (fun x hx => h x (by simp [hx])) _

theorem tryMatchObj_hit {inner : List Char} (hin : ∀ c ∈ inner, c ≠ '}')
    {rest : List Char} (hla : lookaheadOk rest = true) :
    ∀ acc, tryMatchObj acc (inner ++ '}' :: rest) =
      some (acc.reverse ++ inner ++ ['}'], rest) := by
  induction inner with
  | nil =>
    intro acc
    simp [tryMatchObj, hla]
  | cons c inner2 ih =>
    intro acc
    have hc : c ≠ '}' := hin c (by simp)
    have ih2 := ih (fun x hx => hin x (by simp [hx])) (c :: acc)
    simp only [List.cons_append, tryMatchObj]
    rw [if_neg (by rintro ⟨h1, _⟩; exact hc h1)]
    show tryMatchObj (c :: acc) (inner2 ++ '}' :: rest) =
      some (acc.reverse ++ c :: inner2 ++ ['}'], rest)
    rw [ih2]
    simp

theorem tryMatchObj_miss {inner : List Char} (hin : ∀ c ∈ inner, c ≠ '}')
    {tail : List Char} (hla : lookaheadOk tail = false)
    (htail : ∀ c ∈ tail, c ≠ '}') :
    ∀ acc, tryMatchObj acc (inner ++ '}' :: tail) = none := by
  induction inner with
  | nil =>
    intro acc
    simp only [List.nil_append, tryMatchObj]
    rw [if_neg (by rintro ⟨_, h2⟩; rw [hla] at h2; exact Bool.noConfusion h2)]
    exact tryMatchObj_none htail _
  | cons c inner2 ih =>
    intro acc
    have hc : c ≠ '}' := hin c (by simp)
    simp only [List.cons_append, tryMatchObj]
    rw [if_neg (by rintro ⟨h1, _⟩; exact hc h1)]
    exact ih (fun x hx => hin x (by simp [hx])) _

theorem scanGo_no_open {cs : List Char} (h : ∀ c ∈ cs, c ≠ '{') :
    ∀ f, scanGo f cs = [] := by
  induction cs with
  | nil => intro f; cases f <;> rfl
  | cons c r ih =>
    intro f
    cases f with
    | zero => rfl
    | succ f2 =>
      have hc : c ≠ '{' := h c (by simp)
      simp only [scanGo]
      rw [if_neg hc]
      exact ih (fun x hx => h x (by simp [hx])) f2

theorem scanGo_skip {pre : List Char} (h : ∀ c ∈ pre, c ≠ '{') (cs : List Char) :
    ∀ f, scanGo (pre.length + f) (pre ++ cs) = scanGo f cs := by
  induction pre with
  | nil => intro f; simp
  | cons c pre2 ih =>
    intro f
    have hc : c ≠ '{' := h c (by simp)
    have hl : (c :: pre2).length + f = (pre2.length + f) + 1 := by
      simp [List.length_cons]
      omega
    rw [hl]
    simp only [List.cons_append, scanGo]
    rw [if_neg hc]
    exact ih (fun x hx => h x (by simp [hx])) f

theorem scanGo_fragment {gi : List Char} (hgi : ∀ c ∈ gi, plainChar c = true) :
    ∀ f, scanGo f (',' :: '{' :: gi) = [] := by
  intro f
  cases f with
  | zero => rfl
  | succ f1 =>
    simp only [scanGo]
    rw [if_neg (by decide)]
    cases f1 with
    | zero => rfl
    | succ f2 =>
      simp only [scanGo, if_true]
      rw [tryMatchObj_none (fun c hc => plainChar_ne_close (hgi c hc))]
      exact scanGo_no_open (fun c hc => plainChar_ne_open (hgi c hc)) f2

theorem scanGo_boundary_single {o : Flds} (ho : fldsSafe o = true) {T : List Char}
    (hT : T = [] ∨ T = [',']) :
    ∀ f, scanGo f (renderObjT o ++ T) = [] := by
  have hplain := renderFields_plain ho
  have hin : ∀ c ∈ renderFields o, c ≠ '}' :=
    fun c hc => plainChar_ne_close (List.all_eq_true.mp hplain c hc)
  have hin2 : ∀ c ∈ renderFields o, c ≠ '{' :=
    fun c hc => plainChar_ne_open (List.all_eq_true.mp hplain c hc)
  have hla : lookaheadOk T = false := by
    rcases hT with h | h <;> subst h <;> decide
  have hTne : ∀ c ∈ T, c ≠ '}' := by
    rcases hT with h | h <;> subst h <;> simp
  have hTnl : ∀ c ∈ T, c ≠ '{' := by
    rcases hT with h | h <;> subst h <;> simp
  have hshape : renderObjT o ++ T = '{' :: (renderFields o ++ '}' :: T) := by
    simp [renderObjT, List.append_assoc]
  intro f
  rw [hshape]
  cases f with
  | zero => rfl
  | succ f2 =>
    simp only [scanGo, if_true]
    rw [tryMatchObj_miss hin hla hTne]
    apply scanGo_no_open _ f2
    intro c hc
    simp only [List.mem_append, List.mem_cons] at hc
    rcases hc with hc | hc | hc
    · exact hin2 c hc
    · subst hc; decide
    · exact hTnl c hc

theorem renderPlanBody_append_last {os : List Flds} (h : os ≠ []) (o : Flds) :
    renderPlanBody (os ++ [o]) = renderPlanBody os ++ ',' :: renderObjT o := by
  induction os with
  | nil => cases h rfl
  | cons o1 os2 ih =>
    cases os2 with
    | nil => rfl
    | cons o2 os3 =>
      have ih2 := ih (by simp)
      calc renderPlanBody ((o1 :: o2 :: os3) ++ [o])
          = renderObjT o1 ++ ',' :: renderPlanBody ((o2 :: os3) ++ [o]) := rfl
        _ = renderObjT o1 ++ ',' :: (renderPlanBody (o2 :: os3) ++ ',' :: renderObjT o) := by
            rw [ih2]
        _ = (renderObjT o1 ++ ',' :: renderPlanBody (o2 :: os3)) ++ ',' :: renderObjT o := by
            simp [List.append_assoc]
        _ = renderPlanBody (o1 :: o2 :: os3) ++ ',' :: renderObjT o := rfl

/-- The scanner over a rendered plan body followed by a tail at which the
lookahead succeeds but which itself yields no matches: every object of the
body is matched, in order. -/
theorem scanGo_chain {objs : List Flds} (h : plansSafe objs = true) (hne : objs ≠ [])
    {T : List Char} (hla : lookaheadOk T = true) (htail : ∀ f, scanGo f T = []) :
    ∀ f, (renderPlanBody objs ++ T).length ≤ f →
      scanGo f (renderPlanBody objs ++ T) = objs.map renderObjT := by
  induction objs with
  | nil => cases hne rfl
  | cons o os ih =>
    intro f hf
    have ho : fldsSafe o = true := List.all_eq_true.mp h o (by simp)
    have hos : plansSafe os = true :=
      List.all_eq_true.mpr (fun q hq => List.all_eq_true.mp h q (by simp [hq]))
    have hin : ∀ c ∈ renderFields o, c ≠ '}' :=
      fun c hc => plainChar_ne_close (List.all_eq_true.mp (renderFields_plain ho) c hc)
    cases os with
    | nil =>
      have hshape : renderPlanBody [o] ++ T = '{' :: (renderFields o ++ '}' :: T) := by
        simp [renderPlanBody, renderObjT, List.append_assoc]
      rw [hshape] at hf ⊢
      cases f with
      | zero => simp at hf
      | succ f2 =>
        simp only [scanGo, if_true]
        rw [tryMatchObj_hit hin hla]
        simp [htail f2, renderObjT]
    | cons o2 os2 =>
      have hstart : ∃ r, renderPlanBody (o2 :: os2) = '{' :: r := by
        cases os2 <;> exact ⟨_, rfl⟩
      have hshape : renderPlanBody (o :: o2 :: os2) ++ T =
          '{' :: (renderFields o ++ '}' :: (',' :: (renderPlanBody (o2 :: os2) ++ T))) := by
        simp [renderPlanBody, renderObjT, List.append_assoc]
      have hla2 : lookaheadOk (',' :: (renderPlanBody (o2 :: os2) ++ T)) = true := by
        obtain ⟨r, hr⟩ := hstart
        rw [hr]
        rfl
      rw [hshape] at hf ⊢
      cases f with
      | zero => simp at hf
      | succ f2 =>
        simp only [scanGo, if_true]
        rw [tryMatchObj_hit hin hla2]
        cases f2 with
        | zero =>
          exfalso
          simp only [List.length_cons, List.length_append] at hf
          omega
        | succ f3 =>
          have hlen : (renderPlanBody (o2 :: os2) ++ T).length ≤ f3 := by
            simp only [List.length_cons, List.length_append] at hf ⊢
            omega
          have ihx := ih hos (by simp) f3 hlen
          simp [scanGo, ihx, renderObjT]

/-! ### Roundtrip of `JSON.parse` on rendered plans -/

theorem safeChar_ne_quote {c : Char} (h : safeChar c = true) : c ≠ '"' := by
  simp only [safeChar, Bool.and_eq_true, bne_iff_ne, decide_eq_true_eq] at h
  tauto

theorem safeChar_ne_bs {c : Char} (h : safeChar c = true) : c ≠ '\\' := by
  simp only [safeChar, Bool.and_eq_true, bne_iff_ne, decide_eq_true_eq] at h
  tauto

theorem safeChar_ge32 {c : Char} (h : safeChar c = true) : 32 ≤ c.toNat := by
  simp only [safeChar, Bool.and_eq_true, bne_iff_ne, decide_eq_true_eq] at h
  tauto

theorem parseStringChars_quote (rest : List Char) :
    parseStringChars ('"' :: rest) = some ([], rest) := by
  rw [parseStringChars.eq_def]
  split
  · simp_all
  · rename_i heq
    obtain ⟨rfl, rfl⟩ := heq
    simp

theorem parseStringChars_safeStep {c : Char} (h1 : c ≠ '"') (h2 : c ≠ '\\')
    (h3 : ¬ c.toNat < 32) (r : List Char) :
    parseStringChars (c :: r) = (parseStringChars r).map (fun p => (c :: p.1, p.2)) := by
  rw [parseStringChars.eq_def]
  split <;> simp_all

theorem safeStr_string_parse {v : List Char} (h : safeStr v = true) (rest : List Char) :
    parseStringChars (v ++ '"' :: rest) = some (v, rest) := by
  induction v with
  | nil => exact parseStringChars_quote rest
  | cons c v2 ih =>
    have hc := List.all_eq_true.mp h c (by simp)
    have hv2 : safeStr v2 = true :=
      List.all_eq_true.mpr (fun x hx => List.all_eq_true.mp h x (by simp [hx]))
    simp only [List.cons_append]
    rw [parseStringChars_safeStep (safeChar_ne_quote hc) (safeChar_ne_bs hc)
      (by have := safeChar_ge32 hc; omega), ih hv2]
    rfl

theorem skipJsonWs_cons {c : Char} (h : jsonWs c = false) (r : List Char) :
    skipJsonWs (c :: r) = c :: r := by
  simp [skipJsonWs, skipWsWith, h]

theorem parseValue_str {v : List Char} (h : safeStr v = true) (f : Nat) (rest : List Char) :
    parseValue (f + 1) ('"' :: (v ++ '"' :: rest)) = some (Json.str (String.mk v), rest) := by
  simp only [parseValue]
  rw [skipJsonWs_cons (by decide)]
  simp [safeStr_string_parse h]

theorem renderField_append (p : List Char × List Char) (X : List Char) :
    renderField p ++ X = '"' :: (p.1 ++ '"' :: ':' :: '"' :: (p.2 ++ '"' :: X)) := by
  simp [renderField, List.append_assoc]

theorem parseMembersLoop_render {flds : Flds} (h : fldsSafe flds = true) (hne : flds ≠ []) :
    ∀ f, flds.length < f → ∀ (acc : List (String × Json)) (rest : List Char),
    parseMembersLoop f (renderFields flds ++ '}' :: rest) acc =
      some (Json.obj (flds.foldl
        (fun a p => objInsert a (String.mk p.1) (Json.str (String.mk p.2))) acc), rest) := by
  induction flds with
  | nil => cases hne rfl
  | cons p ps ih =>
    intro f hf acc rest
    simp only [List.length_cons] at hf
    obtain ⟨f1, rfl⟩ : ∃ f1, f = f1 + 1 := ⟨f - 1, by omega⟩
    obtain ⟨f2, rfl⟩ : ∃ f2, f1 = f2 + 1 := ⟨f1 - 1, by omega⟩
    have hp := List.all_eq_true.mp h p (by simp)
    have hp1 : safeStr p.1 = true := by
      simp only [Bool.and_eq_true] at hp
      exact hp.1
    have hp2 : safeStr p.2 = true := by
      simp only [Bool.and_eq_true] at hp
      exact hp.2
    have hps : fldsSafe ps = true :=
      List.all_eq_true.mpr (fun q hq => List.all_eq_true.mp h q (by simp [hq]))
    cases ps with
    | nil =>
      rw [show renderFields [p] = renderField p from rfl, renderField_append]
      simp only [parseMembersLoop]
      rw [skipJsonWs_cons (by decide)]
      simp [safeStr_string_parse hp1, parseValue_str hp2,
        skipJsonWs_cons (show jsonWs ':' = false from by decide),
        skipJsonWs_cons (show jsonWs '}' = false from by decide)]
    | cons q qs =>
      have hshape : renderFields (p :: q :: qs) ++ '}' :: rest =
          renderField p ++ (',' :: (renderFields (q :: qs) ++ '}' :: rest)) := by
        simp [renderFields, List.append_assoc]
      rw [hshape, renderField_append, parseMembersLoop.eq_def]
      simp only []
      rw [skipJsonWs_cons (by decide)]
      have ihx := ih hps (by simp) (f2 + 1) (by
        simp only [List.length_cons] at hf ⊢
        omega) (objInsert acc (String.mk p.1) (Json.str (String.mk p.2))) rest
      simp [safeStr_string_parse hp1, parseValue_str hp2, ihx,
        skipJsonWs_cons (show jsonWs ':' = false from by decide),
        skipJsonWs_cons (show jsonWs ',' = false from by decide)]

theorem renderObjT_append (flds : Flds) (X : List Char) :
    renderObjT flds ++ X = '{' :: (renderFields flds ++ '}' :: X) := by
  simp [renderObjT, List.append_assoc]

theorem renderFields_cons_shape (p : List Char × List Char) (ps : Flds) :
    ∃ r, renderFields (p :: ps) = '"' :: r := by
  cases ps <;> exact ⟨_, rfl⟩

theorem parseValue_obj {flds : Flds} (h : fldsSafe flds = true) :
    ∀ f, flds.length + 2 < f → ∀ rest,
    parseValue f (renderObjT flds ++ rest) = some (fieldsVal flds, rest) := by
  intro f hf rest
  obtain ⟨f1, rfl⟩ : ∃ f1, f = f1 + 1 := ⟨f - 1, by omega⟩
  obtain ⟨f2, rfl⟩ : ∃ f2, f1 = f2 + 1 := ⟨f1 - 1, by omega⟩
  rw [renderObjT_append]
  simp only [parseValue]
  rw [skipJsonWs_cons (by decide)]
  cases flds with
  | nil =>
    simp [parseObjRest, renderFields, fieldsVal,
      skipJsonWs_cons (show jsonWs '}' = false from by decide)]
  | cons p ps =>
    obtain ⟨r, hr⟩ := renderFields_cons_shape p ps
    have hmem := parseMembersLoop_render h (by simp) f2
      (by simp only [List.length_cons] at hf ⊢; omega) [] rest
    rw [hr] at hmem
    simp only [List.cons_append] at hmem
    simp only [parseObjRest]
    rw [show renderFields (p :: ps) ++ '}' :: rest = '"' :: (r ++ '}' :: rest) from by
      rw [hr]; rfl]
    rw [skipJsonWs_cons (by decide)]
    simp [hmem, fieldsVal]

/-- Fuel needed by the element loop on a rendered plan. -/
def planFuel : List Flds → Nat
  | [] => 1
  | o :: os => o.length + 6 + planFuel os

theorem renderFields_length (flds : Flds) : flds.length ≤ (renderFields flds).length := by
  induction flds with
  | nil => simp [renderFields]
  | cons p ps ih =>
    cases ps with
    | nil =>
      simp [renderFields, renderField, List.length_append, List.length_cons]
    | cons q qs =>
      simp only [renderFields, renderField, List.length_append, List.length_cons] at ih ⊢
      omega

theorem planFuel_le (objs : List Flds) :
    planFuel objs ≤ 2 * (renderPlanBody objs).length + 3 := by
  induction objs with
  | nil => simp [planFuel, renderPlanBody]
  | cons o os ih =>
    have hrf := renderFields_length o
    cases os with
    | nil =>
      simp only [planFuel, renderPlanBody, renderObjT, List.length_cons, List.length_append]
      omega
    | cons o2 os2 =>
      simp only [planFuel, renderPlanBody, renderObjT, List.length_cons,
        List.length_append] at ih ⊢
      omega

theorem parseElemsLoop_render {objs : List Flds} (h : plansSafe objs = true)
    (hne : objs ≠ []) :
    ∀ f, planFuel objs ≤ f → ∀ (acc : List Json) (rest : List Char),
    parseElemsLoop f (renderPlanBody objs ++ ']' :: rest) acc =
      some (Json.arr (acc.reverse ++ objs.map fieldsVal), rest) := by
  induction objs with
  | nil => cases hne rfl
  | cons o os ih =>
    intro f hf acc rest
    obtain ⟨f1, rfl⟩ : ∃ f1, f = f1 + 1 := ⟨f - 1, by
      simp only [planFuel] at hf
      omega⟩
    have ho : fldsSafe o = true := List.all_eq_true.mp h o (by simp)
    have hos : plansSafe os = true :=
      List.all_eq_true.mpr (fun q hq => List.all_eq_true.mp h q (by simp [hq]))
    cases os with
    | nil =>
      have hv := parseValue_obj ho f1 (by
        simp only [planFuel] at hf
        omega) (']' :: rest)
      simp only [renderPlanBody, parseElemsLoop]
      rw [hv]
      simp [skipJsonWs_cons (show jsonWs ']' = false from by decide)]
    | cons o2 os2 =>
      have hshape : renderPlanBody (o :: o2 :: os2) ++ ']' :: rest =
          renderObjT o ++ (',' :: (renderPlanBody (o2 :: os2) ++ ']' :: rest)) := by
        simp [renderPlanBody, List.append_assoc]
      have hv := parseValue_obj ho f1 (by
        simp only [planFuel] at hf
        omega) (',' :: (renderPlanBody (o2 :: os2) ++ ']' :: rest))
      have ihx := ih hos (by simp) f1 (by
        simp only [planFuel] at hf ⊢
        omega) (fieldsVal o :: acc) rest
      rw [hshape]
      simp only [parseElemsLoop]
      rw [hv]
      simp [skipJsonWs_cons (show jsonWs ',' = false from by decide), ihx]

theorem renderPlanBody_cons_shape (o : Flds) (os : List Flds) :
    ∃ r, renderPlanBody (o :: os) = '{' :: r := by
  cases os <;> exact ⟨_, rfl⟩

theorem jsonParse_renderPlan {objs : List Flds} (h : plansSafe objs = true) :
    jsonParse (renderPlanT objs) = some (planVal objs) := by
  cases objs with
  | nil => rfl
  | cons o os =>
    have hshape : renderPlanT (o :: os) = '[' :: (renderPlanBody (o :: os) ++ [']']) := rfl
    obtain ⟨r, hr⟩ := renderPlanBody_cons_shape o os
    have hN : ∃ N2, 3 * (renderPlanT (o :: os)).length + 6 = N2 + 2 ∧
        planFuel (o :: os) ≤ N2 := by
      refine ⟨3 * (renderPlanT (o :: os)).length + 4, by omega, ?_⟩
      have hb := planFuel_le (o :: os)
      have : (renderPlanT (o :: os)).length = (renderPlanBody (o :: os)).length + 2 := by
        simp [renderPlanT]
      omega
    obtain ⟨N2, hN2, hle⟩ := hN
    have helems := parseElemsLoop_render h (by simp) N2 hle [] []
    unfold jsonParse
    rw [hN2, hshape]
    simp only [parseValue]
    rw [skipJsonWs_cons (by decide)]
    simp only [parseArrayRest]
    rw [show renderPlanBody (o :: os) ++ [']'] = '{' :: (r ++ [']']) from by rw [hr]; rfl]
    rw [skipJsonWs_cons (by decide)]
    have helems2 : parseElemsLoop N2 ('{' :: (r ++ [']'])) [] =
        some (Json.arr (List.map fieldsVal (o :: os)), []) := by
      rw [show ('{' :: (r ++ [']'])) = renderPlanBody (o :: os) ++ ']' :: [] from by
        rw [hr]; rfl]
      simpa using helems
    simp [helems2, planVal, skipJsonWs, skipWsWith]

theorem parseValue_nil (f : Nat) : parseValue f [] = none := by
  cases f <;> rfl

theorem parseElemsLoop_nil (f : Nat) (acc : List Json) :
    parseElemsLoop f [] acc = none := by
  cases f with
  | zero => rfl
  | succ f2 =>
    simp only [parseElemsLoop]
    rw [parseValue_nil]

theorem jsonParse_trunc_single {o : Flds} (h : fldsSafe o = true) {T : List Char}
    (hT : T = [] ∨ T = [',']) :
    jsonParse ('[' :: (renderObjT o ++ T)) = none := by
  obtain ⟨rr, hrr⟩ : ∃ rr, renderObjT o = '{' :: rr := ⟨_, rfl⟩
  obtain ⟨N3, hN3, hlt⟩ : ∃ N3, 3 * ('[' :: (renderObjT o ++ T)).length + 6 = N3 + 3 ∧
      o.length + 2 < N3 := by
    refine ⟨3 * ('[' :: (renderObjT o ++ T)).length + 3, rfl, ?_⟩
    have := renderFields_length o
    simp only [List.length_cons, List.length_append, renderObjT]
    omega
  have hv := parseValue_obj h N3 hlt T
  have hv2 : parseValue N3 ('{' :: (rr ++ T)) = some (fieldsVal o, T) := by
    rw [show ('{' :: (rr ++ T)) = renderObjT o ++ T from by rw [hrr]; rfl]
    exact hv
  unfold jsonParse
  rw [hN3]
  simp only [parseValue]
  rw [skipJsonWs_cons (by decide)]
  simp only [parseArrayRest]
  rw [show renderObjT o ++ T = '{' :: (rr ++ T) from by rw [hrr]; rfl]
  rw [skipJsonWs_cons (by decide)]
  simp only [parseElemsLoop]
  rw [hv2]
  rcases hT with hT | hT <;> subst hT
  · rfl
  · simp [skipJsonWs_cons (show jsonWs ',' = false from by decide), parseElemsLoop_nil]

/-! ### Glue: trimming, fence scan, scanner and reconstruction on whole texts -/

theorem skipJsWs_keep {c : Char} (h : jsWs c = false) (r : List Char) :
    skipJsWs (c :: r) = c :: r := by
  simp [skipJsWs, skipWsWith, h]

theorem jsTrim_shape {a z : Char} (ha : jsWs a = false) (hz : jsWs z = false)
    (X : List Char) : jsTrim (a :: (X ++ [z])) = a :: (X ++ [z]) := by
  unfold jsTrim
  rw [show skipJsWs (a :: (X ++ [z])) = a :: (X ++ [z]) from skipJsWs_keep ha _]
  rw [show (a :: (X ++ [z])).reverse = z :: (X.reverse ++ [a]) from by simp]
  rw [skipJsWs_keep hz]
  simp

theorem mem_skipWsWith {p : Char → Bool} {x : Char} :
    ∀ {cs : List Char}, x ∈ skipWsWith p cs → x ∈ cs := by
  intro cs
  induction cs with
  | nil => intro h; exact h
  | cons c r ih =>
    intro h
    simp only [skipWsWith] at h
    split at h
    · exact List.mem_cons_of_mem _ (ih h)
    · exact h

theorem mem_jsTrim {x : Char} {cs : List Char} (h : x ∈ jsTrim cs) : x ∈ cs := by
  unfold jsTrim at h
  rw [List.mem_reverse] at h
  rw [show skipJsWs = skipWsWith jsWs from rfl] at h
  have h2 := mem_skipWsWith h
  rw [List.mem_reverse] at h2
  exact mem_skipWsWith h2

theorem lastIs_false_of_not_mem {cs : List Char} {c : Char} (h : c ∉ cs) :
    lastIs cs c = false := by
  unfold lastIs
  cases hg : cs.getLast? with
  | none => rfl
  | some x =>
    have hmem : x ∈ cs.getLast? := by rw [hg]; rfl
    obtain ⟨hne, rfl⟩ := List.mem_getLast?_eq_getLast hmem
    have hx : cs.getLast hne ∈ cs := List.getLast_mem hne
    have hxc : cs.getLast hne ≠ c := fun he => h (he ▸ hx)
    simp [hxc]

theorem lastIs_trim_false {cs : List Char} (h : ']' ∉ cs) :
    lastIs (jsTrim cs) ']' = false :=
  lastIs_false_of_not_mem (fun hm => h (mem_jsTrim hm))

theorem lastIs_concat (l : List Char) (z c : Char) :
    lastIs (l ++ [z]) c = (z == c) := by
  unfold lastIs
  rw [List.getLast?_concat]

theorem lastIs_cons_concat (a z c : Char) (X : List Char) :
    lastIs (a :: (X ++ [z])) c = (z == c) := by
  rw [show a :: (X ++ [z]) = (a :: X) ++ [z] from rfl, lastIs_concat]

theorem contains_of_mem {cs : List Char} {c : Char} (h : c ∈ cs) :
    cs.contains c = true := by
  simpa using h

theorem startsFence_ne {c : Char} (h : c ≠ btick) (rest : List Char) :
    startsFence (c :: rest) = false := by
  cases rest with
  | nil => rfl
  | cons b r2 =>
    cases r2 with
    | nil => rfl
    | cons d r3 => simp [startsFence, h]

theorem fenceScan_none {cs : List Char} (h : btick ∉ cs) : fenceScan cs = none := by
  induction cs with
  | nil => rfl
  | cons c rest ih =>
    have hc : c ≠ btick := fun he => h (he ▸ List.mem_cons_self c rest)
    have ih2 := ih (fun hm => h (List.mem_cons_of_mem _ hm))
    simp [fenceScan, fenceMatchAt, startsFence_ne hc, ih2]

theorem interflat_render : ∀ objs : List Flds,
    ((objs.map renderObjT).intersperse [',']).flatten = renderPlanBody objs
  | [] => rfl
  | [o] => by simp [List.intersperse, renderPlanBody]
  | o :: o2 :: os => by
    have ih := interflat_render (o2 :: os)
    simp only [List.map_cons] at ih ⊢
    rw [List.intersperse_cons₂]
    simp only [List.flatten_cons] at ih ⊢
    rw [show renderPlanBody (o :: o2 :: os)
        = renderObjT o ++ ',' :: renderPlanBody (o2 :: os) from rfl]
    rw [← ih]
    simp

theorem reconstruct_render (objs : List Flds) :
    reconstructArray (objs.map renderObjT) = renderPlanT objs := by
  unfold reconstructArray renderPlanT
  rw [interflat_render]

theorem scanGo_cons_skip {c : Char} (h : c ≠ '{') (rest : List Char) (f : Nat) :
    scanGo (f + 1) (c :: rest) = scanGo f rest := by
  simp only [scanGo]
  rw [if_neg h]

theorem scanChainFull (pre : List Char) (hpre : ∀ c ∈ pre, c ≠ '{')
    {objs : List Flds} (h : plansSafe objs = true) (hne : objs ≠ [])
    {T : List Char} (hla : lookaheadOk T = true) (htail : ∀ f, scanGo f T = []) :
    scanObjects (pre ++ (renderPlanBody objs ++ T)) = objs.map renderObjT := by
  unfold scanObjects
  rw [show (pre ++ (renderPlanBody objs ++ T)).length
      = pre.length + (renderPlanBody objs ++ T).length from by simp]
  rw [scanGo_skip hpre]
  exact scanGo_chain h hne hla htail _ (le_refl _)

theorem scanEmptyFull (pre : List Char) (hpre : ∀ c ∈ pre, c ≠ '{')
    {X : List Char} (hX : ∀ f, scanGo f X = []) :
    scanObjects (pre ++ X) = [] := by
  unfold scanObjects
  rw [show (pre ++ X).length = pre.length + X.length from by simp]
  rw [scanGo_skip hpre]
  exact hX _

theorem plansSafe_split {objs : List Flds} {o : Flds}
    (h : plansSafe (objs ++ [o]) = true) :
    plansSafe objs = true ∧ fldsSafe o = true := by
  simp only [plansSafe, List.all_append, List.all_cons, List.all_nil,
    Bool.and_true, Bool.and_eq_true] at h
  exact h

theorem pcrTruncSome {cs : List Char} (h1 : lastIs (jsTrim cs) ']' = false)
    (h2 : cs.contains '[' = true) {o : List Char} {os : List (List Char)}
    (h3 : scanObjects cs = o :: os) {v : Json}
    (h4 : jsonParse (reconstructArray (o :: os)) = some v) :
    parseClaudeResponse cs = some v := by
  have h2m : '[' ∈ cs := by simpa using h2
  unfold parseClaudeResponse
  simp [h1, h2m, h3, h4]

theorem pcrRepair {cs : List Char} (h1 : lastIs (jsTrim cs) ']' = false)
    (h2 : cs.contains '[' = true) (h3 : scanObjects cs = [])
    (h4 : fenceScan cs = none) (h5 : jsTrim cs = cs)
    (h6 : jsonParse cs = none) {v : Json}
    (h7 : jsonParse (stripTrailingComma cs ++ [']']) = some v) :
    parseClaudeResponse cs = some v := by
  have h2m : '[' ∈ cs := by simpa using h2
  unfold parseClaudeResponse
  simp [h1, h2m, h3, h4, h5, h6, h7]
  exact h5 ▸ h1

theorem pcrDirect {cs : List Char} (h1 : lastIs (jsTrim cs) ']' = true)
    (h4 : fenceScan cs = none) (h5 : jsTrim cs = cs) {v : Json}
    (h6 : jsonParse cs = some v) :
    parseClaudeResponse cs = some v := by
  have h1a : lastIs cs ']' = true := h5 ▸ h1
  unfold parseClaudeResponse
  simp [h1, h1a, h4, h5, h6]

/-- C3: counterexample.  The text `[{"a":"x"},{"b":"y"}` is a JSON array
truncated before its closing bracket that contains two complete top-level
objects (completing it with `]` parses to both objects, second conjunct), yet
`parseClaudeResponse` recovers only the first object: the regex lookahead
requires `,{` or `]` after a `}`, so the last complete object of a
boundary-truncated text is dropped, contradicting "returns exactly the
complete objects, dropping only the incomplete trailing fragment". -/
theorem C3_counterexample :
    parseClaude "[\x7b\"a\":\"x\"\x7d,\x7b\"b\":\"y\"\x7d" =
      some (Json.arr [Json.obj [("a", Json.str "x")]]) ∧
    jsonParse ("[\x7b\"a\":\"x\"\x7d,\x7b\"b\":\"y\"\x7d]".toList) =
      some (Json.arr [Json.obj [("a", Json.str "x")],
        Json.obj [("b", Json.str "y")]]) :=
  ⟨rfl, rfl⟩

/-- C3: what truncation recovery actually does, over the flat plan grammar.
(1) If the text ends mid-object (an incomplete `{`-fragment follows the
complete objects), all complete objects are recovered, in order — this part of
the claim holds.  (2) If the text ends right after a single complete object
(optionally with a trailing comma), the trailing-comma repair stage recovers
that object.  (3) But if the text ends at an object boundary after two or more
complete objects, the scanner drops the last complete object: the result is
the plan without its final action — a strict prefix, refuting "exactly the
complete objects".  In all cases the result is a prefix (never a superset or
reordering). -/
theorem C3_truncation_recovery :
    (∀ objs : List Flds, plansSafe objs = true → objs ≠ [] →
      ∀ gi : List Char, gi.all plainChar = true →
        parseClaudeResponse ('[' :: (renderPlanBody objs ++ ',' :: '{' :: gi)) =
          some (planVal objs)) ∧
    (∀ o : Flds, fldsSafe o = true → ∀ T : List Char, T = [] ∨ T = [','] →
      parseClaudeResponse ('[' :: (renderObjT o ++ T)) = some (planVal [o])) ∧
    (∀ objs : List Flds, ∀ o : Flds, plansSafe (objs ++ [o]) = true → objs ≠ [] →
      ∀ T : List Char, T = [] ∨ T = [','] →
        parseClaudeResponse ('[' :: (renderPlanBody (objs ++ [o]) ++ T)) =
          some (planVal objs)) := by
  refine ⟨?_, ?_, ?_⟩
  · intro objs h hne gi hgi
    have hbody := renderPlanBody_chars h
    have hnb : ']' ∉ '[' :: (renderPlanBody objs ++ ',' :: '{' :: gi) := by
      intro hm
      simp only [List.mem_cons, List.mem_append] at hm
      rcases hm with hm | hm | hm | hm | hm
      · exact absurd hm (by decide)
      · exact bodyChar_ne_rb (List.all_eq_true.mp hbody _ hm) rfl
      · exact absurd hm (by decide)
      · exact absurd hm (by decide)
      · exact absurd (List.all_eq_true.mp hgi _ hm) (by decide)
    have hla : lookaheadOk (',' :: '{' :: gi) = true := by
      simp [lookaheadOk, skipJsWs_keep (show jsWs ',' = false from by decide),
        skipJsWs_keep (show jsWs '{' = false from by decide)]
    have htail : ∀ f, scanGo f (',' :: '{' :: gi) = [] :=
      scanGo_fragment (fun c hc => List.all_eq_true.mp hgi c hc)
    obtain ⟨o1, os1, rfl⟩ : ∃ o1 os1, objs = o1 :: os1 := by
      cases objs with
      | nil => exact absurd rfl hne
      | cons a b => exact ⟨a, b, rfl⟩
    have hscan : scanObjects ('[' :: (renderPlanBody (o1 :: os1) ++ ',' :: '{' :: gi))
        = renderObjT o1 :: os1.map renderObjT := by
      have hx := scanChainFull ['['] (by decide) h hne hla htail
      simpa using hx
    apply pcrTruncSome (lastIs_trim_false hnb)
      (contains_of_mem (List.mem_cons_self _ _)) hscan
    rw [show renderObjT o1 :: os1.map renderObjT = (o1 :: os1).map renderObjT from rfl,
      reconstruct_render]
    exact jsonParse_renderPlan h
  · intro o ho T hT
    have hob := renderObjT_body ho
    have hnb : ']' ∉ '[' :: (renderObjT o ++ T) := by
      intro hm
      simp only [List.mem_cons, List.mem_append] at hm
      rcases hm with hm | hm | hm
      · exact absurd hm (by decide)
      · exact bodyChar_ne_rb (List.all_eq_true.mp hob _ hm) rfl
      · rcases hT with hT | hT <;> subst hT <;> revert hm <;> decide
    have hnt : btick ∉ '[' :: (renderObjT o ++ T) := by
      intro hm
      simp only [List.mem_cons, List.mem_append] at hm
      rcases hm with hm | hm | hm
      · exact absurd hm (by decide)
      · exact bodyChar_ne_tick (List.all_eq_true.mp hob _ hm) rfl
      · rcases hT with hT | hT <;> subst hT <;> revert hm <;> decide
    have hscan : scanObjects ('[' :: (renderObjT o ++ T)) = [] := by
      have hx := scanEmptyFull ['['] (by decide) (scanGo_boundary_single ho hT)
      simpa using hx
    have h5 : jsTrim ('[' :: (renderObjT o ++ T)) = '[' :: (renderObjT o ++ T) := by
      rcases hT with hT | hT <;> subst hT
      · rw [show '[' :: (renderObjT o ++ []) = '[' :: (('{' :: renderFields o) ++ ['}'])
          from by simp [renderObjT]]
        exact jsTrim_shape (by decide) (by decide) _
      · exact jsTrim_shape (by decide) (by decide) _
    have hstrip : stripTrailingComma ('[' :: (renderObjT o ++ T)) ++ [']']
        = renderPlanT [o] := by
      rcases hT with hT | hT <;> subst hT
      · have hrev : ('[' :: (renderObjT o ++ [])).reverse
            = '}' :: ((renderFields o).reverse ++ ['{', '[']) := by
          simp [renderObjT]
        unfold stripTrailingComma
        rw [hrev, show skipJsWs ('}' :: ((renderFields o).reverse ++ ['{', '[']))
            = '}' :: ((renderFields o).reverse ++ ['{', '['])
          from skipJsWs_keep (by decide) _]
        simp [renderPlanT, renderPlanBody]
      · have hrev : ('[' :: (renderObjT o ++ [','])).reverse
            = ',' :: ((renderObjT o).reverse ++ ['[']) := by
          simp
        unfold stripTrailingComma
        rw [hrev, show skipJsWs (',' :: ((renderObjT o).reverse ++ ['[']))
            = ',' :: ((renderObjT o).reverse ++ ['['])
          from skipJsWs_keep (by decide) _]
        simp [renderPlanT, renderPlanBody]
    have hps : plansSafe [o] = true := by simp [plansSafe, ho]
    apply pcrRepair (lastIs_trim_false hnb) (contains_of_mem (List.mem_cons_self _ _))
      hscan (fenceScan_none hnt) h5 (jsonParse_trunc_single ho hT)
    rw [hstrip]
    exact jsonParse_renderPlan hps
  · intro objs o h hne T hT
    obtain ⟨hobjs, ho⟩ := plansSafe_split h
    have hbody := renderPlanBody_chars h
    have hnb : ']' ∉ '[' :: (renderPlanBody (objs ++ [o]) ++ T) := by
      intro hm
      simp only [List.mem_cons, List.mem_append] at hm
      rcases hm with hm | hm | hm
      · exact absurd hm (by decide)
      · exact bodyChar_ne_rb (List.all_eq_true.mp hbody _ hm) rfl
      · rcases hT with hT | hT <;> subst hT <;> revert hm <;> decide
    have hla : lookaheadOk (',' :: (renderObjT o ++ T)) = true := by
      rw [show renderObjT o ++ T = '{' :: (renderFields o ++ '}' :: T)
        from by simp [renderObjT]]
      simp [lookaheadOk, skipJsWs_keep (show jsWs ',' = false from by decide),
        skipJsWs_keep (show jsWs '{' = false from by decide)]
    have htail : ∀ f, scanGo f (',' :: (renderObjT o ++ T)) = [] := by
      intro f
      cases f with
      | zero => rfl
      | succ f2 =>
        rw [scanGo_cons_skip (show (',' : Char) ≠ '{' from by decide)]
        exact scanGo_boundary_single ho hT f2
    obtain ⟨o1, os1, rfl⟩ : ∃ o1 os1, objs = o1 :: os1 := by
      cases objs with
      | nil => exact absurd rfl hne
      | cons a b => exact ⟨a, b, rfl⟩
    have hscan : scanObjects ('[' :: (renderPlanBody ((o1 :: os1) ++ [o]) ++ T))
        = renderObjT o1 :: os1.map renderObjT := by
      have hsplit : '[' :: (renderPlanBody ((o1 :: os1) ++ [o]) ++ T)
          = ['['] ++ (renderPlanBody (o1 :: os1) ++ (',' :: (renderObjT o ++ T))) := by
        rw [renderPlanBody_append_last hne o]
        simp
      rw [hsplit]
      have hx := scanChainFull ['['] (by decide) hobjs hne hla htail
      simpa using hx
    apply pcrTruncSome (lastIs_trim_false hnb)
      (contains_of_mem (List.mem_cons_self _ _)) hscan
    rw [show renderObjT o1 :: os1.map renderObjT = (o1 :: os1).map renderObjT from rfl,
      reconstruct_render]
    exact jsonParse_renderPlan hobjs

/-- Witness for C3: all three branches of `C3_truncation_recovery` at concrete
plans — mid-object truncation recovers the full one-object plan; a single
boundary-truncated object (with trailing comma) is recovered by the repair
stage; a two-object plan truncated at the boundary loses its second object. -/
theorem C3_witness :
    parseClaudeResponse
        ('[' :: (renderPlanBody [[(['a'], ['x'])]] ++ ',' :: '{' :: ['"'])) =
      some (planVal [[(['a'], ['x'])]]) ∧
    parseClaudeResponse ('[' :: (renderObjT [(['a'], ['x'])] ++ [','])) =
      some (planVal [[(['a'], ['x'])]]) ∧
    parseClaudeResponse
        ('[' :: (renderPlanBody ([[(['a'], ['x'])]] ++ [[(['b'], ['y'])]]) ++ [])) =
      some (planVal [[(['a'], ['x'])]]) :=
  ⟨C3_truncation_recovery.1 [[(['a'], ['x'])]] (by decide) (by decide) ['"'] (by decide),
   C3_truncation_recovery.2.1 [(['a'], ['x'])] (by decide) [','] (by decide),
   C3_truncation_recovery.2.2 [[(['a'], ['x'])]] [(['b'], ['y'])] (by decide) (by decide)
     [] (by decide)⟩

/-- C4: counterexample.  The text
`[{"tool":"a","parameters":{},"reasoning":"}]` ``\x60\x60\x60`` `"}]` is a valid
JSON array (first conjunct) and the bare text parses to its JSON value (second
conjunct), but the same text wrapped in a fenced code block parses to nothing:
the truncation heuristic fires on the fenced text (it does not end in `]`), the
scanner matches a `}` inside the string literal, and every later stage fails.
So parse of a valid array and parse of its fenced wrapping are not always
equal. -/
theorem C4_counterexample :
    jsonParse
        "[\x7b\"tool\":\"a\",\"parameters\":\x7b\x7d,\"reasoning\":\"\x7d]```\"\x7d]".toList =
      some (Json.arr [Json.obj
        [("tool", Json.str "a"), ("parameters", Json.obj []),
         ("reasoning", Json.str "\x7d]```")]]) ∧
    parseClaude "[\x7b\"tool\":\"a\",\"parameters\":\x7b\x7d,\"reasoning\":\"\x7d]```\"\x7d]" =
      some (Json.arr [Json.obj
        [("tool", Json.str "a"), ("parameters", Json.obj []),
         ("reasoning", Json.str "\x7d]```")]]) ∧
    parseClaude
        (fenceWrap "[\x7b\"tool\":\"a\",\"parameters\":\x7b\x7d,\"reasoning\":\"\x7d]```\"\x7d]") =
      none :=
  ⟨rfl, rfl, rfl⟩

/-- C4: over the flat plan grammar the claim holds — a rendered plan array
parses to its JSON value both bare and wrapped in a fenced code block.  (The
bare text parses directly; the fenced text is caught by the truncation
heuristic, whose scanner recovers every object of the plan.) -/
theorem C4_fenced_equivalence {objs : List Flds} (h : plansSafe objs = true) :
    parseClaude (String.mk (renderPlanT objs)) = some (planVal objs) ∧
    parseClaude (fenceWrap (String.mk (renderPlanT objs))) = some (planVal objs) := by
  constructor
  · show parseClaudeResponse (renderPlanT objs) = some (planVal objs)
    have hbody := renderPlanBody_chars h
    have hsh : renderPlanT objs = '[' :: (renderPlanBody objs ++ [']']) := rfl
    have hnt : btick ∉ renderPlanT objs := by
      rw [hsh]
      intro hm
      simp only [List.mem_cons, List.mem_append] at hm
      rcases hm with hm | hm | hm
      · exact absurd hm (by decide)
      · exact bodyChar_ne_tick (List.all_eq_true.mp hbody _ hm) rfl
      · revert hm; decide
    have h5 : jsTrim (renderPlanT objs) = renderPlanT objs := by
      rw [hsh]
      exact jsTrim_shape (by decide) (by decide) _
    have h1 : lastIs (jsTrim (renderPlanT objs)) ']' = true := by
      rw [h5, hsh, lastIs_cons_concat]
      decide
    exact pcrDirect h1 (fenceScan_none hnt) h5 (jsonParse_renderPlan h)
  · cases objs with
    | nil => rfl
    | cons o os =>
      show parseClaudeResponse ((fenceWrap (String.mk (renderPlanT (o :: os)))).toList)
        = some (planVal (o :: os))
      have hCS : (fenceWrap (String.mk (renderPlanT (o :: os)))).toList
          = "```json\n".toList ++ (renderPlanT (o :: os) ++ "\n```".toList) := rfl
      rw [hCS]
      have hsplit : "```json\n".toList ++ (renderPlanT (o :: os) ++ "\n```".toList)
          = ("```json\n".toList ++ ['['])
            ++ (renderPlanBody (o :: os) ++ (']' :: "\n```".toList)) := by
        rw [show renderPlanT (o :: os) = '[' :: (renderPlanBody (o :: os) ++ [']'])
          from rfl]
        simp
      have hscan :
          scanObjects ("```json\n".toList ++ (renderPlanT (o :: os) ++ "\n```".toList))
            = renderObjT o :: os.map renderObjT := by
        rw [hsplit]
        have hx := scanChainFull ("```json\n".toList ++ ['[']) (by decide) h (by simp)
          (show lookaheadOk (']' :: "\n```".toList) = true from by decide)
          (scanGo_no_open (by decide))
        simpa using hx
      have hsh2 : "```json\n".toList ++ (renderPlanT (o :: os) ++ "\n```".toList)
          = btick :: (("``json\n".toList
              ++ (renderPlanT (o :: os) ++ "\n``".toList)) ++ [btick]) := by
        rw [show "```json\n".toList = btick :: "``json\n".toList from rfl,
          show ("\n```".toList : List Char) = "\n``".toList ++ [btick] from rfl]
        simp
      have h5 : jsTrim ("```json\n".toList ++ (renderPlanT (o :: os) ++ "\n```".toList))
          = "```json\n".toList ++ (renderPlanT (o :: os) ++ "\n```".toList) := by
        rw [hsh2]
        exact jsTrim_shape (by decide) (by decide) _
      have h1 :
          lastIs (jsTrim ("```json\n".toList
            ++ (renderPlanT (o :: os) ++ "\n```".toList))) ']' = false := by
        rw [h5, hsh2, lastIs_cons_concat]
        decide
      have h2 :
          ("```json\n".toList ++ (renderPlanT (o :: os) ++ "\n```".toList)).contains '['
            = true :=
        contains_of_mem (by
          simp [show renderPlanT (o :: os) = '[' :: (renderPlanBody (o :: os) ++ [']'])
            from rfl])
      apply pcrTruncSome h1 h2 hscan
      rw [show renderObjT o :: os.map renderObjT = (o :: os).map renderObjT from rfl,
        reconstruct_render]
      exact jsonParse_renderPlan h

/-- Witness for C4: a concrete one-action plan parses to the same value bare
and fenced. -/
theorem C4_witness :
    parseClaude (String.mk (renderPlanT [[(['t'], ['a'])]])) =
      some (planVal [[(['t'], ['a'])]]) ∧
    parseClaude (fenceWrap (String.mk (renderPlanT [[(['t'], ['a'])]]))) =
      some (planVal [[(['t'], ['a'])]]) :=
  C4_fenced_equivalence (by decide)

end Sitecore
